import Mathlib

/-!
Verification of the network-change reconciler of onos-config
(pkg/controller/change/network/controller.go).

The reconciler is embedded shallowly: Go pointer-mutating loops become
explicit state passing over a `W` value holding both stores, and the
fallible store operations (`Create`, `Update`) consume an explicit
fault schedule (a list of booleans, `true` = the operation fails with a
transient store error).  Read operations (`Get`, `GetByIndex`,
`LastIndex`) are modelled as infallible lookups, except that `Get` on
the device-change store reports a not-found error on an absent id.

Go string identifiers are modelled as natural numbers, with `0` playing
the role of the empty string `""` (an unassigned DeviceChange id).
-/

namespace Onos

/-- Phase of a change (types/change: Phase_CHANGE, Phase_ROLLBACK). -/
inductive Phase where
  | CHANGE
  | ROLLBACK
deriving DecidableEq, Repr

/-- State of a change (types/change: State_PENDING, State_RUNNING,
State_COMPLETE, State_FAILED). -/
inductive ChangeState where
  | PENDING
  | RUNNING
  | COMPLETE
  | FAILED
deriving DecidableEq, Repr

/-- Reason recorded on a status (types/change: Reason_NONE, Reason_ERROR). -/
inductive Reason where
  | NONE
  | ERROR
deriving DecidableEq, Repr

/-- Status carried by both NetworkChange and DeviceChange. -/
structure Status where
  phase : Phase
  state : ChangeState
  reason : Reason
deriving DecidableEq, Repr

/-- One element of NetworkChange.Changes: the per-device request, plus the
store-assigned id and index of the corresponding DeviceChange (id 0 models
the empty string, meaning not yet created). -/
structure DeviceChangeRef where
  id : Nat
  index : Nat
  deviceID : String
  deviceVersion : String
  values : Nat
deriving DecidableEq, Repr

/-- A network change (types/change/network.NetworkChange). -/
structure NetworkChange where
  id : Nat
  index : Nat
  changes : List DeviceChangeRef
  status : Status
deriving DecidableEq, Repr

/-- A device change (types/change/device.Change). -/
structure DeviceChange where
  id : Nat
  index : Nat
  networkChangeID : Nat
  deviceID : String
  deviceVersion : String
  values : Nat
  status : Status
deriving DecidableEq, Repr

/-- The persistent state of the two stores the reconciler works against.
`nextDeviceIndex` is the index the device-change store assigns to the next
created entity. -/
structure Stores where
  networkChanges : List NetworkChange
  deviceChanges : List DeviceChange
  nextDeviceIndex : Nat
deriving DecidableEq, Repr

/-- The world a reconcile call runs in: the stores plus the schedule of
transient faults for the fallible write operations (head of the list is
consumed by the next Create/Update; `true` means that operation fails). -/
structure W where
  stores : Stores
  faults : List Bool
deriving DecidableEq, Repr

/-- Errors surfaced by store operations. -/
inductive Err where
  | storeErr
  | notFound (id : Nat)
deriving DecidableEq, Repr

instance {e a : Type} [DecidableEq e] [DecidableEq a] :
    DecidableEq (Except e a) := fun x y =>
  match x, y with
  | Except.error x1, Except.error y1 =>
    if h : x1 = y1 then isTrue (h ▸ rfl)
    else isFalse (fun hc => h (by cases hc; rfl))
  | Except.error _, Except.ok _ => isFalse (fun hc => Except.noConfusion hc)
  | Except.ok _, Except.error _ => isFalse (fun hc => Except.noConfusion hc)
  | Except.ok x1, Except.ok y1 =>
    if h : x1 = y1 then isTrue (h ▸ rfl)
    else isFalse (fun hc => h (by cases hc; rfl))

/-- The reconciler's process-local state: `changeIndex` is the index of the
highest sequential network change applied. -/
structure Reconciler where
  changeIndex : Nat
deriving DecidableEq, Repr

/-- Pop the next fault token; an empty schedule means no fault. -/
def takeFault (w : W) : Bool × W :=
  match w.faults with
  | [] => (false, w)
  | f :: rest => (f, { w with faults := rest })

/-- Modelled from the spec: networkChanges.Get(id) of the network-change
store (store implementation not under src/) - lookup by id, nil when
absent. -/
def netGet (w : W) (id : Nat) : Option NetworkChange :=
  w.stores.networkChanges.find? (fun c => c.id == id)

/-- Modelled from the spec: networkChanges.GetByIndex(index) - lookup by
index, nil on a gap. -/
def netGetByIndex (w : W) (index : Nat) : Option NetworkChange :=
  w.stores.networkChanges.find? (fun c => c.index == index)

/-- Modelled from the spec: networkChanges.LastIndex() - the store's
current last index. -/
def netLastIndex (w : W) : Nat :=
  w.stores.networkChanges.foldr (fun c m => max c.index m) 0

/-- Replace the first network change whose id matches; none when the id is
absent. -/
def replaceNet (c : NetworkChange) : List NetworkChange → Option (List NetworkChange)
  | [] => none
  | x :: xs =>
    if x.id == c.id then some (c :: xs)
    else (replaceNet c xs).map (fun l => x :: l)

/-- The fault-free part of networkChanges.Update: replace the stored
entity, failing on an absent id. -/
def netUpdateCommit (w1 : W) (c : NetworkChange) : Option Err × W :=
  match replaceNet c w1.stores.networkChanges with
  | none => (some (Err.notFound c.id), w1)
  | some l => (none, { w1 with stores := { w1.stores with networkChanges := l } })

/-- Modelled from the spec: networkChanges.Update(c) - fails on a transient
store fault or an absent id, otherwise replaces the stored entity. -/
def netUpdate (w : W) (c : NetworkChange) : Option Err × W :=
  match takeFault w with
  | (true, w1) => (some Err.storeErr, w1)
  | (false, w1) => netUpdateCommit w1 c

/-- Modelled from the spec: deviceChanges.Get(id) - a not-found error on an
absent referenced child is reported to the caller (spec section 7 treats it
as transient). -/
def devGet (w : W) (id : Nat) : Except Err DeviceChange :=
  match w.stores.deviceChanges.find? (fun d => d.id == id) with
  | some d => Except.ok d
  | none => Except.error (Err.notFound id)

/-- The fault-free part of deviceChanges.Create: assign the store-chosen
id and index and append the entity. -/
def devCreateCommit (w1 : W) (dc : DeviceChange) : Option Err × DeviceChange × W :=
  let idx := w1.stores.nextDeviceIndex
  let dc2 := { dc with id := idx, index := idx }
  (none, dc2,
    { w1 with stores := { w1.stores with
        deviceChanges := w1.stores.deviceChanges ++ [dc2],
        nextDeviceIndex := idx + 1 } })

/-- Modelled from the spec: deviceChanges.Create(dc) - assigns the
store-chosen id and index to the created entity and appends it. -/
def devCreate (w : W) (dc : DeviceChange) : Option Err × DeviceChange × W :=
  match takeFault w with
  | (true, w1) => (some Err.storeErr, dc, w1)
  | (false, w1) => devCreateCommit w1 dc

/-- Replace the first device change whose id matches; none when absent. -/
def replaceDev (dc : DeviceChange) : List DeviceChange → Option (List DeviceChange)
  | [] => none
  | x :: xs =>
    if x.id == dc.id then some (dc :: xs)
    else (replaceDev dc xs).map (fun l => x :: l)

/-- The fault-free part of deviceChanges.Update. -/
def devUpdateCommit (w1 : W) (dc : DeviceChange) : Option Err × W :=
  match replaceDev dc w1.stores.deviceChanges with
  | none => (some (Err.notFound dc.id), w1)
  | some l => (none, { w1 with stores := { w1.stores with deviceChanges := l } })

/-- Modelled from the spec: deviceChanges.Update(dc). -/
def devUpdate (w : W) (dc : DeviceChange) : Option Err × W :=
  match takeFault w with
  | (true, w1) => (some Err.storeErr, w1)
  | (false, w1) => devUpdateCommit w1 dc

/-- isIntersectingChange: the two NetworkChanges share at least one
DeviceID (controller.go lines 421-430). -/
def isIntersectingChange (config history : NetworkChange) : Bool :=
  config.changes.any fun configChange =>
    history.changes.any fun historyChange =>
      configChange.deviceID == historyChange.deviceID

/-- Loop body of ensureDeviceChanges (controller.go lines 84-101): create a
device change for every ref whose id is still empty, copying the assigned
id and index back onto the ref.  Returns (error, updated, refs, world). -/
def ensureDeviceChangesLoop (configID : Nat) (w : W) :
    List DeviceChangeRef → Option Err × Bool × List DeviceChangeRef × W
  | [] => (none, false, [], w)
  | ref :: rest =>
    if ref.id == 0 then
      let dc : DeviceChange :=
        { id := 0, index := 0,
          networkChangeID := configID,
          deviceID := ref.deviceID,
          deviceVersion := ref.deviceVersion,
          values := ref.values,
          status := { phase := Phase.CHANGE, state := ChangeState.PENDING,
                      reason := Reason.NONE } }
      match devCreate w dc with
      | (some e, _, w1) => (some e, false, ref :: rest, w1)
      | (none, dc2, w1) =>
        let ref2 := { ref with id := dc2.id, index := dc2.index }
        match ensureDeviceChangesLoop configID w1 rest with
        | (e, _, rest2, w2) => (e, true, ref2 :: rest2, w2)
    else
      match ensureDeviceChangesLoop configID w rest with
      | (e, upd, rest2, w2) => (e, upd, ref :: rest2, w2)

/-- ensureDeviceChanges (controller.go lines 83-110): materialize missing
children, then persist the parent when any ref was filled in. -/
def ensureDeviceChanges (config : NetworkChange) (w : W) :
    (Bool × Option Err) × NetworkChange × W :=
  match ensureDeviceChangesLoop config.id w config.changes with
  | (some e, _, _, w1) => ((false, some e), config, w1)
  | (none, updated, refs, w1) =>
    let config2 := { config with changes := refs }
    if updated then
      match netUpdate w1 config2 with
      | (some e, w2) => ((false, some e), config2, w2)
      | (none, w2) => ((true, none), config2, w2)
    else
      ((false, none), config2, w1)

/-- Loop of canApplyChange (controller.go lines 144-164), recursing on the
remaining number of indexes to scan (change.Index - index).  GetByIndex is
infallible in this embedding, so the loop's error return is dead code and
the result is just the admission boolean plus the reconciler (whose
changeIndex the loop advances over a sequential terminal prefix). -/
def canApplyChangeFrom (change : NetworkChange) (w : W) :
    Bool → Reconciler → Nat → Nat → Bool × Reconciler
  | _, r, _, 0 => (true, r)
  | sequential, r, index, fuel + 1 =>
    match netGetByIndex w index with
    | none => canApplyChangeFrom change w sequential r (index + 1) fuel
    | some priorChange =>
      if priorChange.status.state = ChangeState.PENDING ∨
         priorChange.status.state = ChangeState.RUNNING then
        if isIntersectingChange change priorChange then (false, r)
        else canApplyChangeFrom change w false r (index + 1) fuel
      else
        if sequential then
          canApplyChangeFrom change w sequential
            { r with changeIndex := r.changeIndex + 1 } (index + 1) fuel
        else
          canApplyChangeFrom change w sequential r (index + 1) fuel

/-- canApplyChange (controller.go lines 143-164). -/
def canApplyChange (change : NetworkChange) (r : Reconciler) (w : W) :
    Bool × Reconciler :=
  canApplyChangeFrom change w true r r.changeIndex (change.index - r.changeIndex)

/-- reconcilePendingChange (controller.go lines 126-141). -/
def reconcilePendingChange (change : NetworkChange) (r : Reconciler) (w : W) :
    (Bool × Option Err) × Reconciler × W :=
  match canApplyChange change r w with
  | (canApply, r1) =>
    if !canApply then ((false, none), r1, w)
    else
      let change2 := { change with
        status := { change.status with state := ChangeState.RUNNING } }
      match netUpdate w change2 with
      | (some e, w1) => ((false, some e), r1, w1)
      | (none, w1) => ((true, none), r1, w1)

/-- Loop of getDeviceChanges (controller.go lines 226-236): fetch the
child device change of every ref, propagating the first error. -/
def getDeviceChangesLoop (w : W) : List DeviceChangeRef → Except Err (List DeviceChange)
  | [] => Except.ok []
  | ref :: rest =>
    match devGet w ref.id with
    | Except.error e => Except.error e
    | Except.ok d =>
      match getDeviceChangesLoop w rest with
      | Except.error e => Except.error e
      | Except.ok ds => Except.ok (d :: ds)

/-- getDeviceChanges (controller.go lines 225-236). -/
def getDeviceChanges (change : NetworkChange) (w : W) : Except Err (List DeviceChange) :=
  getDeviceChangesLoop w change.changes

/-- isDeviceChangesComplete (controller.go lines 239-246). -/
def isDeviceChangesComplete : List DeviceChange → Bool
  | [] => true
  | d :: rest =>
    if d.status.state = ChangeState.COMPLETE then isDeviceChangesComplete rest
    else false

/-- isDeviceChangesFailed (controller.go lines 249-256). -/
def isDeviceChangesFailed : List DeviceChange → Bool
  | [] => false
  | d :: rest =>
    if d.status.state = ChangeState.FAILED then true
    else isDeviceChangesFailed rest

/-- Loop of ensureDeviceChangesRunning (controller.go lines 210-223):
promote every PENDING child to RUNNING, carrying the `updated`
accumulator. -/
def ensureDeviceChangesRunningLoop (w : W) (updated : Bool) :
    List DeviceChange → (Bool × Option Err) × W
  | [] => ((updated, none), w)
  | d :: rest =>
    if d.status.state = ChangeState.PENDING then
      let d2 := { d with status := { d.status with state := ChangeState.RUNNING } }
      match devUpdate w d2 with
      | (some e, w1) => ((false, some e), w1)
      | (none, w1) => ensureDeviceChangesRunningLoop w1 true rest
    else
      ensureDeviceChangesRunningLoop w updated rest

/-- ensureDeviceChangesRunning (controller.go lines 209-223). -/
def ensureDeviceChangesRunning (changes : List DeviceChange) (w : W) :
    (Bool × Option Err) × W :=
  ensureDeviceChangesRunningLoop w false changes

/-- Loop of ensureDeviceChangeRollbacksRunning (controller.go lines
259-272): move every child still in the CHANGE phase that has not failed
to (ROLLBACK, RUNNING). -/
def ensureDeviceChangeRollbacksRunningLoop (w : W) (updated : Bool) :
    List DeviceChange → (Bool × Option Err) × W
  | [] => ((updated, none), w)
  | d :: rest =>
    if d.status.phase = Phase.CHANGE ∧ d.status.state ≠ ChangeState.FAILED then
      let d2 := { d with status := { d.status with
        phase := Phase.ROLLBACK, state := ChangeState.RUNNING } }
      match devUpdate w d2 with
      | (some e, w1) => ((false, some e), w1)
      | (none, w1) => ensureDeviceChangeRollbacksRunningLoop w1 true rest
    else
      ensureDeviceChangeRollbacksRunningLoop w updated rest

/-- ensureDeviceChangeRollbacksRunning (controller.go lines 258-272). -/
def ensureDeviceChangeRollbacksRunning (changes : List DeviceChange) (w : W) :
    (Bool × Option Err) × W :=
  ensureDeviceChangeRollbacksRunningLoop w false changes

/-- isDeviceChangeRollbacksComplete (controller.go lines 275-282). -/
def isDeviceChangeRollbacksComplete : List DeviceChange → Bool
  | [] => true
  | d :: rest =>
    if d.status.phase = Phase.ROLLBACK ∧ d.status.state ≠ ChangeState.COMPLETE then
      false
    else isDeviceChangeRollbacksComplete rest

/-- reconcileRunningChange (controller.go lines 167-207). -/
def reconcileRunningChange (change : NetworkChange) (w : W) :
    (Bool × Option Err) × W :=
  match getDeviceChanges change w with
  | Except.error e => ((false, some e), w)
  | Except.ok deviceChanges =>
    match ensureDeviceChangesRunning deviceChanges w with
    | ((succeeded, e), w1) =>
      if succeeded || e.isSome then ((succeeded, e), w1)
      else if isDeviceChangesComplete deviceChanges then
        let change2 := { change with
          status := { change.status with state := ChangeState.COMPLETE } }
        match netUpdate w1 change2 with
        | (some e2, w2) => ((false, some e2), w2)
        | (none, w2) => ((true, none), w2)
      else if isDeviceChangesFailed deviceChanges then
        match ensureDeviceChangeRollbacksRunning deviceChanges w1 with
        | ((succeeded2, e2), w2) =>
          if succeeded2 || e2.isSome then ((succeeded2, e2), w2)
          else if isDeviceChangeRollbacksComplete deviceChanges then
            let newStatus := { change.status with
              state := ChangeState.PENDING, reason := Reason.ERROR }
            let change2 := { change with status := newStatus }
            match netUpdate w2 change2 with
            | (some e3, w3) => ((false, some e3), w3)
            | (none, w3) => ((true, none), w3)
          else ((true, none), w2)
      else ((true, none), w1)

/-- reconcileChange (controller.go lines 113-123). -/
def reconcileChange (change : NetworkChange) (r : Reconciler) (w : W) :
    (Bool × Option Err) × Reconciler × W :=
  match change.status.state with
  | ChangeState.PENDING => reconcilePendingChange change r w
  | ChangeState.RUNNING =>
    match reconcileRunningChange change w with
    | (res, w1) => (res, r, w1)
  | _ => ((true, none), r, w)

/-- Loop of ensureDeviceRollbacks (controller.go lines 304-323): rewrite
every child not yet in the ROLLBACK phase to (ROLLBACK, PENDING). -/
def ensureDeviceRollbacksLoop (w : W) (updated : Bool) :
    List DeviceChangeRef → (Bool × Option Err) × W
  | [] => ((updated, none), w)
  | ref :: rest =>
    match devGet w ref.id with
    | Except.error e => ((false, some e), w)
    | Except.ok dc =>
      if dc.status.phase ≠ Phase.ROLLBACK then
        let dc2 := { dc with status := { dc.status with
          phase := Phase.ROLLBACK, state := ChangeState.PENDING } }
        match devUpdate w dc2 with
        | (some e, w1) => ((false, some e), w1)
        | (none, w1) => ensureDeviceRollbacksLoop w1 true rest
      else
        ensureDeviceRollbacksLoop w updated rest

/-- ensureDeviceRollbacks (controller.go lines 303-323). -/
def ensureDeviceRollbacks (change : NetworkChange) (w : W) :
    (Bool × Option Err) × W :=
  ensureDeviceRollbacksLoop w false change.changes

/-- Loop of canApplyRollback (controller.go lines 350-357), recursing on
the number of future indexes left to scan.  At the denying return site the
Go code returns `false, err` where `err` is provably nil, hence the
explicit (false, none). -/
def canApplyRollbackFrom (change : NetworkChange) (w : W) :
    Nat → Nat → Bool × Option Err
  | _, 0 => (true, none)
  | index, fuel + 1 =>
    match netGetByIndex w index with
    | some futureChange =>
      if isIntersectingChange change futureChange ∧
         futureChange.status.state ≠ ChangeState.COMPLETE ∧
         futureChange.status.state ≠ ChangeState.FAILED then
        (false, none)
      else canApplyRollbackFrom change w (index + 1) fuel
    | none => canApplyRollbackFrom change w (index + 1) fuel

/-- canApplyRollback (controller.go lines 344-359). -/
def canApplyRollback (change : NetworkChange) (w : W) : Bool × Option Err :=
  canApplyRollbackFrom change w (change.index + 1) (netLastIndex w - change.index)

/-- reconcilePendingRollback (controller.go lines 326-341). -/
def reconcilePendingRollback (change : NetworkChange) (w : W) :
    (Bool × Option Err) × W :=
  match canApplyRollback change w with
  | (canApply, e) =>
    match e with
    | some err => ((false, some err), w)
    | none =>
      if !canApply then ((false, none), w)
      else
        let change2 := { change with
          status := { change.status with state := ChangeState.RUNNING } }
        match netUpdate w change2 with
        | (some err, w1) => ((false, some err), w1)
        | (none, w1) => ((true, none), w1)

/-- Loop of ensureDeviceRollbacksRunning (controller.go lines 385-402). -/
def ensureDeviceRollbacksRunningLoop (w : W) (updated : Bool) :
    List DeviceChangeRef → (Bool × Option Err) × W
  | [] => ((updated, none), w)
  | ref :: rest =>
    match devGet w ref.id with
    | Except.error e => ((false, some e), w)
    | Except.ok dc =>
      if dc.status.state = ChangeState.PENDING then
        let dc2 := { dc with status := { dc.status with
          state := ChangeState.RUNNING } }
        match devUpdate w dc2 with
        | (some e, w1) => ((false, some e), w1)
        | (none, w1) => ensureDeviceRollbacksRunningLoop w1 true rest
      else
        ensureDeviceRollbacksRunningLoop w updated rest

/-- ensureDeviceRollbacksRunning (controller.go lines 384-402). -/
def ensureDeviceRollbacksRunning (change : NetworkChange) (w : W) :
    (Bool × Option Err) × W :=
  ensureDeviceRollbacksRunningLoop w false change.changes

/-- Loop of isRollbackComplete (controller.go lines 406-417): count the
COMPLETE children, propagating Get errors. -/
def isRollbackCompleteLoop (w : W) : List DeviceChangeRef → Except Err Nat
  | [] => Except.ok 0
  | ref :: rest =>
    match devGet w ref.id with
    | Except.error e => Except.error e
    | Except.ok dc =>
      match isRollbackCompleteLoop w rest with
      | Except.error e => Except.error e
      | Except.ok n =>
        Except.ok (if dc.status.state = ChangeState.COMPLETE then n + 1 else n)

/-- isRollbackComplete (controller.go lines 405-418). -/
def isRollbackComplete (change : NetworkChange) (w : W) : Bool × Option Err :=
  match isRollbackCompleteLoop w change.changes with
  | Except.error e => (false, some e)
  | Except.ok n => (n == change.changes.length, none)

/-- reconcileRunningRollback (controller.go lines 362-382).  Note the
source's final Update: on error it returns (false, nil), discarding the
store error (line 379). -/
def reconcileRunningRollback (change : NetworkChange) (w : W) :
    (Bool × Option Err) × W :=
  match ensureDeviceRollbacksRunning change w with
  | ((succeeded, e), w1) =>
    if succeeded || e.isSome then ((succeeded, e), w1)
    else
      match isRollbackComplete change w1 with
      | (_, some err) => ((false, some err), w1)
      | (complete, none) =>
        if !complete then ((true, none), w1)
        else
          let change2 := { change with
            status := { change.status with state := ChangeState.COMPLETE } }
          match netUpdate w1 change2 with
          | (some _, w2) => ((false, none), w2)
          | (none, w2) => ((true, none), w2)

/-- reconcileRollback (controller.go lines 285-301). -/
def reconcileRollback (change : NetworkChange) (w : W) :
    (Bool × Option Err) × W :=
  match ensureDeviceRollbacks change w with
  | ((updated, e), w1) =>
    if updated || e.isSome then ((updated, e), w1)
    else
      match change.status.state with
      | ChangeState.PENDING => reconcilePendingRollback change w1
      | ChangeState.RUNNING => reconcileRunningRollback change w1
      | _ => ((true, none), w1)

/-- Reconcile (controller.go lines 58-80). -/
def Reconcile (r : Reconciler) (w : W) (id : Nat) :
    (Bool × Option Err) × Reconciler × W :=
  match netGet w id with
  | none => ((true, none), r, w)
  | some change =>
    match ensureDeviceChanges change w with
    | ((succeeded, e), change2, w1) =>
      if succeeded || e.isSome then ((succeeded, e), r, w1)
      else
        match change2.status.phase with
        | Phase.CHANGE => reconcileChange change2 r w1
        | Phase.ROLLBACK =>
          match reconcileRollback change2 w1 with
          | (res, w2) => (res, r, w2)

/-- A sequence of Reconcile calls within one process lifetime, threading
the reconciler's changeIndex and the store state. -/
def ReconcileSeq : List Nat → Reconciler × W → Reconciler × W
  | [], s => s
  | id :: ids, (r, w) =>
    match Reconcile r w id with
    | (_, r1, w1) => ReconcileSeq ids (r1, w1)

/-- A network-change state is terminal when it is COMPLETE or FAILED. -/
def terminal (s : ChangeState) : Prop :=
  s = ChangeState.COMPLETE ∨ s = ChangeState.FAILED

instance (s : ChangeState) : Decidable (terminal s) := by
  unfold terminal; infer_instance

/-- The documented changeIndex invariant (spec section 4.3): every network
change stored at an index below changeIndex is in a terminal state. -/
def Inv (r : Reconciler) (w : W) : Prop :=
  ∀ k, k < r.changeIndex → ∀ p, netGetByIndex w k = some p → terminal p.status.state

/-- Well-formedness of the network-change store: ids and indexes are unique. -/
def netWF (w : W) : Prop :=
  (w.stores.networkChanges.map (fun c => c.id)).Nodup ∧
  (w.stores.networkChanges.map (fun c => c.index)).Nodup

instance (w : W) : Decidable (netWF w) := by
  unfold netWF; infer_instance

/-! ## Store-level helper lemmas -/

theorem replaceNet_find_self (c2 : NetworkChange) :
    ∀ l l', replaceNet c2 l = some l' →
      l'.find? (fun x => x.id == c2.id) = some c2 := by
  intro l
  induction l with
  | nil => intro l' h; simp [replaceNet] at h
  | cons x xs ih =>
    intro l' h
    simp only [replaceNet] at h
    by_cases hx : x.id == c2.id
    · simp only [hx, if_pos rfl] at h
      cases h
      simp [List.find?]
    · rw [if_neg (by simpa using hx)] at h
      cases hrec : replaceNet c2 xs with
      | none => rw [hrec] at h; simp at h
      | some xs0 =>
        rw [hrec] at h; simp at h
        cases h
        simp only [List.find?, hx]
        exact ih xs0 hrec

theorem replaceNet_of_find? (c2 : NetworkChange) :
    ∀ l e, l.find? (fun x => x.id == c2.id) = some e →
      ∃ l', replaceNet c2 l = some l' := by
  intro l
  induction l with
  | nil => intro e h; simp at h
  | cons x xs ih =>
    intro e h
    simp only [replaceNet]
    by_cases hx : x.id == c2.id
    · exact ⟨c2 :: xs, by simp [hx]⟩
    · rw [List.find?] at h
      rw [Bool.of_not_eq_true hx] at h
      obtain ⟨l0, hl0⟩ := ih e h
      exact ⟨x :: l0, by simp [hx, hl0]⟩

theorem replaceDev_find_self (dc : DeviceChange) :
    ∀ l l', replaceDev dc l = some l' →
      l'.find? (fun x => x.id == dc.id) = some dc := by
  intro l
  induction l with
  | nil => intro l' h; simp [replaceDev] at h
  | cons x xs ih =>
    intro l' h
    simp only [replaceDev] at h
    by_cases hx : x.id == dc.id
    · simp only [hx, if_pos rfl] at h
      cases h
      simp [List.find?]
    · rw [if_neg (by simpa using hx)] at h
      cases hrec : replaceDev dc xs with
      | none => rw [hrec] at h; simp at h
      | some xs0 =>
        rw [hrec] at h; simp at h
        cases h
        simp only [List.find?, hx]
        exact ih xs0 hrec

theorem replaceDev_find_other (dc : DeviceChange) :
    ∀ l l' m, replaceDev dc l = some l' → m ≠ dc.id →
      l'.find? (fun x => x.id == m) = l.find? (fun x => x.id == m) := by
  intro l
  induction l with
  | nil => intro l' m h _; simp [replaceDev] at h
  | cons x xs ih =>
    intro l' m h hm
    simp only [replaceDev] at h
    by_cases hx : x.id == dc.id
    · simp only [hx, if_pos rfl] at h
      cases h
      have hxid : x.id = dc.id := by simpa using hx
      by_cases hxm : x.id == m
      · have : x.id = m := by simpa using hxm
        exact absurd (hxid ▸ this) hm.symm
      · have hdm : (dc.id == m) = false := by
          simp only [beq_eq_false_iff_ne]; exact fun hc => hm hc.symm
        simp only [List.find?, hdm, Bool.of_not_eq_true hxm]
    · rw [if_neg (by simpa using hx)] at h
      cases hrec : replaceDev dc xs with
      | none => rw [hrec] at h; simp at h
      | some xs0 =>
        rw [hrec] at h; simp at h
        cases h
        simp only [List.find?]
        cases hxm : (x.id == m)
        · exact ih xs0 m hrec hm
        · rfl

theorem replaceDev_of_find? (dc : DeviceChange) :
    ∀ l e, l.find? (fun x => x.id == dc.id) = some e →
      ∃ l', replaceDev dc l = some l' := by
  intro l
  induction l with
  | nil => intro e h; simp at h
  | cons x xs ih =>
    intro e h
    simp only [replaceDev]
    by_cases hx : x.id == dc.id
    · exact ⟨dc :: xs, by simp [hx]⟩
    · rw [List.find?] at h
      rw [Bool.of_not_eq_true hx] at h
      obtain ⟨l0, hl0⟩ := ih e h
      exact ⟨x :: l0, by simp [hx, hl0]⟩

theorem replaceDev_map_id (dc : DeviceChange) :
    ∀ l l', replaceDev dc l = some l' →
      l'.map (fun d => d.id) = l.map (fun d => d.id) := by
  intro l
  induction l with
  | nil => intro l' h; simp [replaceDev] at h
  | cons x xs ih =>
    intro l' h
    simp only [replaceDev] at h
    by_cases hx : x.id == dc.id
    · simp only [hx, if_pos rfl] at h
      cases h
      simp only [List.map]
      have hxid : x.id = dc.id := by simpa using hx
      rw [hxid]
    · rw [if_neg (by simpa using hx)] at h
      cases hrec : replaceDev dc xs with
      | none => rw [hrec] at h; simp at h
      | some xs0 =>
        rw [hrec] at h; simp at h
        cases h
        simp [ih xs0 hrec]

/-! ## canApplyChange: characterization of the admission scan -/

/-- A prior change at index k blocks admission of c when it is present,
in flight (PENDING or RUNNING) and intersects c. -/
def blocksChange (c : NetworkChange) (w : W) (k : Nat) : Prop :=
  ∃ p, netGetByIndex w k = some p ∧
    (p.status.state = ChangeState.PENDING ∨ p.status.state = ChangeState.RUNNING) ∧
    isIntersectingChange c p = true

theorem canApplyChangeFrom_false_iff (c : NetworkChange) (w : W) :
    ∀ fuel index seq r,
      (canApplyChangeFrom c w seq r index fuel).1 = false ↔
        ∃ k, index ≤ k ∧ k < index + fuel ∧ blocksChange c w k := by
  intro fuel
  induction fuel with
  | zero =>
    intro index seq r
    simp only [canApplyChangeFrom]
    constructor
    · intro h; cases h
    · rintro ⟨k, h1, h2, -⟩; omega
  | succ fuel ih =>
    intro index seq r
    simp only [canApplyChangeFrom]
    cases hg : netGetByIndex w index with
    | none =>
      rw [ih]
      constructor
      · rintro ⟨k, h1, h2, hp⟩
        exact ⟨k, by omega, by omega, hp⟩
      · rintro ⟨k, h1, h2, p, hpk, hrest⟩
        have hk : k ≠ index := by
          intro he; rw [he, hg] at hpk; cases hpk
        exact ⟨k, by omega, by omega, p, hpk, hrest⟩
    | some prior =>
      dsimp only
      by_cases hs : prior.status.state = ChangeState.PENDING ∨
          prior.status.state = ChangeState.RUNNING
      · rw [if_pos hs]
        by_cases hi : isIntersectingChange c prior = true
        · rw [if_pos hi]
          simp only [true_iff]
          exact ⟨index, le_refl _, by omega, prior, hg, hs, hi⟩
        · rw [if_neg hi, ih]
          constructor
          · rintro ⟨k, h1, h2, hp⟩
            exact ⟨k, by omega, by omega, hp⟩
          · rintro ⟨k, h1, h2, p, hpk, hsp, hip⟩
            have hk : k ≠ index := by
              intro he
              rw [he, hg] at hpk
              cases hpk
              exact hi hip
            exact ⟨k, by omega, by omega, p, hpk, hsp, hip⟩
      · rw [if_neg hs]
        have frame : ∀ r2 s2,
            ((canApplyChangeFrom c w s2 r2 (index + 1) fuel).1 = false ↔
              ∃ k, index ≤ k ∧ k < index + (fuel + 1) ∧ blocksChange c w k) := by
          intro r2 s2
          rw [ih]
          constructor
          · rintro ⟨k, h1, h2, hp⟩
            exact ⟨k, by omega, by omega, hp⟩
          · rintro ⟨k, h1, h2, p, hpk, hsp, hip⟩
            have hk : k ≠ index := by
              intro he
              rw [he, hg] at hpk
              cases hpk
              exact hs hsp
            exact ⟨k, by omega, by omega, p, hpk, hsp, hip⟩
        cases seq with
        | true => simpa using frame { r with changeIndex := r.changeIndex + 1 } true
        | false => simpa using frame r false

/-- C3: canApplyChange(c) scans the indexes from changeIndex up to but
excluding c.Index and returns false exactly when some prior change in that
range is PENDING or RUNNING and shares a DeviceID with c; a non-intersecting
in-flight prior does not block, and otherwise the scan admits. -/
theorem claim_C3 (c : NetworkChange) (r : Reconciler) (w : W) :
    (canApplyChange c r w).1 = false ↔
      ∃ k, r.changeIndex ≤ k ∧ k < c.index ∧ blocksChange c w k := by
  unfold canApplyChange
  rw [canApplyChangeFrom_false_iff]
  constructor
  · rintro ⟨k, h1, h2, hp⟩
    exact ⟨k, by omega, by omega, hp⟩
  · rintro ⟨k, h1, h2, hp⟩
    exact ⟨k, by omega, by omega, hp⟩

/-! ## canApplyRollback: characterization -/

/-- A future change at index k blocks the rollback of c when it is present,
intersects c and is neither COMPLETE nor FAILED. -/
def blocksRollback (c : NetworkChange) (w : W) (k : Nat) : Prop :=
  ∃ f, netGetByIndex w k = some f ∧ isIntersectingChange c f = true ∧
    f.status.state ≠ ChangeState.COMPLETE ∧ f.status.state ≠ ChangeState.FAILED

theorem canApplyRollbackFrom_snd (c : NetworkChange) (w : W) :
    ∀ fuel index, (canApplyRollbackFrom c w index fuel).2 = none := by
  intro fuel
  induction fuel with
  | zero => intro index; simp [canApplyRollbackFrom]
  | succ fuel ih =>
    intro index
    simp only [canApplyRollbackFrom]
    cases hg : netGetByIndex w index with
    | none => exact ih (index + 1)
    | some f =>
      dsimp only
      split
      · rfl
      · exact ih (index + 1)

theorem canApplyRollbackFrom_false_iff (c : NetworkChange) (w : W) :
    ∀ fuel index,
      (canApplyRollbackFrom c w index fuel).1 = false ↔
        ∃ k, index ≤ k ∧ k < index + fuel ∧ blocksRollback c w k := by
  intro fuel
  induction fuel with
  | zero =>
    intro index
    simp only [canApplyRollbackFrom]
    constructor
    · intro h; cases h
    · rintro ⟨k, h1, h2, -⟩; omega
  | succ fuel ih =>
    intro index
    simp only [canApplyRollbackFrom]
    cases hg : netGetByIndex w index with
    | none =>
      rw [ih]
      constructor
      · rintro ⟨k, h1, h2, hp⟩
        exact ⟨k, by omega, by omega, hp⟩
      · rintro ⟨k, h1, h2, f, hpk, hrest⟩
        have hk : k ≠ index := by
          intro he; rw [he, hg] at hpk; cases hpk
        exact ⟨k, by omega, by omega, f, hpk, hrest⟩
    | some f =>
      dsimp only
      by_cases hb : isIntersectingChange c f = true ∧
          f.status.state ≠ ChangeState.COMPLETE ∧ f.status.state ≠ ChangeState.FAILED
      · rw [if_pos hb]
        simp only [true_iff]
        exact ⟨index, le_refl _, by omega, f, hg, hb.1, hb.2.1, hb.2.2⟩
      · rw [if_neg hb, ih]
        constructor
        · rintro ⟨k, h1, h2, hp⟩
          exact ⟨k, by omega, by omega, hp⟩
        · rintro ⟨k, h1, h2, f2, hpk, hi2, hc2, hf2⟩
          have hk : k ≠ index := by
            intro he
            rw [he, hg] at hpk
            cases hpk
            exact hb ⟨hi2, hc2, hf2⟩
          exact ⟨k, by omega, by omega, f2, hpk, hi2, hc2, hf2⟩

/-- C7: canApplyRollback(c) denies exactly when some NetworkChange at an
index in (c.Index, LastIndex] intersects c and is in a state other than
COMPLETE or FAILED; the denial is returned as (false, nil), i.e. without an
error, and otherwise it admits. -/
theorem claim_C7 (c : NetworkChange) (w : W) :
    (canApplyRollback c w).2 = none ∧
      ((canApplyRollback c w).1 = false ↔
        ∃ k, c.index < k ∧ k ≤ netLastIndex w ∧ blocksRollback c w k) := by
  constructor
  · exact canApplyRollbackFrom_snd c w _ _
  · unfold canApplyRollback
    rw [canApplyRollbackFrom_false_iff]
    constructor
    · rintro ⟨k, h1, h2, hp⟩
      exact ⟨k, by omega, by omega, hp⟩
    · rintro ⟨k, h1, h2, hp⟩
      exact ⟨k, by omega, by omega, hp⟩


/-! ## Store operations: normal forms and projection lemmas -/

theorem takeFault_stores (w : W) : (takeFault w).2.stores = w.stores := by
  cases w with
  | mk s fl => cases fl <;> rfl

theorem netUpdate_eq (w : W) (c : NetworkChange) :
    netUpdate w c =
      if (takeFault w).1 then (some Err.storeErr, (takeFault w).2)
      else netUpdateCommit (takeFault w).2 c := by
  unfold netUpdate
  rcases htf : takeFault w with ⟨f, w1⟩
  cases f <;> rfl

theorem devUpdate_eq (w : W) (dc : DeviceChange) :
    devUpdate w dc =
      if (takeFault w).1 then (some Err.storeErr, (takeFault w).2)
      else devUpdateCommit (takeFault w).2 dc := by
  unfold devUpdate
  rcases htf : takeFault w with ⟨f, w1⟩
  cases f <;> rfl

theorem devCreate_eq (w : W) (dc : DeviceChange) :
    devCreate w dc =
      if (takeFault w).1 then (some Err.storeErr, dc, (takeFault w).2)
      else devCreateCommit (takeFault w).2 dc := by
  unfold devCreate
  rcases htf : takeFault w with ⟨f, w1⟩
  cases f <;> rfl

theorem netGet_congr (w1 w2 : W)
    (h : w1.stores.networkChanges = w2.stores.networkChanges) :
    ∀ id, netGet w1 id = netGet w2 id := by
  intro id
  unfold netGet
  rw [h]

theorem devCreate_net {w : W} {dc : DeviceChange} {eo : Option Err}
    {dc2 : DeviceChange} {w1 : W} (h : devCreate w dc = (eo, dc2, w1)) :
    w1.stores.networkChanges = w.stores.networkChanges := by
  have hp : ((devCreate w dc).2.2).stores.networkChanges
      = w.stores.networkChanges := by
    rw [devCreate_eq]
    by_cases hf : (takeFault w).1
    · rw [if_pos hf]
      dsimp only
      rw [takeFault_stores]
    · rw [if_neg hf]
      unfold devCreateCommit
      dsimp only
      rw [takeFault_stores]
  rw [h] at hp
  exact hp

theorem devUpdate_net {w : W} {dc : DeviceChange} {eo : Option Err} {w1 : W}
    (h : devUpdate w dc = (eo, w1)) :
    w1.stores.networkChanges = w.stores.networkChanges := by
  have hp : ((devUpdate w dc).2).stores.networkChanges
      = w.stores.networkChanges := by
    rw [devUpdate_eq]
    by_cases hf : (takeFault w).1
    · rw [if_pos hf]
      dsimp only
      rw [takeFault_stores]
    · rw [if_neg hf]
      unfold devUpdateCommit
      split
      · dsimp only
        rw [takeFault_stores]
      · dsimp only
        rw [takeFault_stores]
  rw [h] at hp
  exact hp

/-! ## ensureDeviceChanges: support lemmas -/

theorem ensureDeviceChangesLoop_net (configID : Nat) :
    ∀ refs w, ((ensureDeviceChangesLoop configID w refs).2.2.2).stores.networkChanges
      = w.stores.networkChanges := by
  intro refs
  induction refs with
  | nil => intro w; rfl
  | cons ref rest ih =>
    intro w
    simp only [ensureDeviceChangesLoop]
    by_cases href : (ref.id == 0)
    · rw [if_pos href]
      split
      · next e fst w1 hdc =>
        dsimp only
        exact devCreate_net hdc
      · next dc2 w1 hdc =>
        dsimp only
        exact (ih w1).trans (devCreate_net hdc)
    · rw [if_neg href]
      exact ih w

theorem ensureDeviceChangesLoop_notUpdated (configID : Nat) :
    ∀ refs w, (ensureDeviceChangesLoop configID w refs).1 = none →
      (ensureDeviceChangesLoop configID w refs).2.1 = false →
      (ensureDeviceChangesLoop configID w refs).2.2.1 = refs ∧
      (ensureDeviceChangesLoop configID w refs).2.2.2 = w := by
  intro refs
  induction refs with
  | nil => intro w h1 h2; exact ⟨rfl, rfl⟩
  | cons ref rest ih =>
    intro w
    simp only [ensureDeviceChangesLoop]
    by_cases href : (ref.id == 0)
    · rw [if_pos href]
      split
      · next e fst w1 hdc =>
        intro h1 h2
        simp at h1
      · next dc2 w1 hdc =>
        intro h1 h2
        simp at h2
    · rw [if_neg href]
      intro h1 h2
      dsimp only at h1 h2 ⊢
      obtain ⟨ha, hb⟩ := ih w h1 h2
      refine ⟨?_, hb⟩
      rw [ha]

theorem ensureDeviceChanges_continue (config : NetworkChange) (w : W)
    (h : (ensureDeviceChanges config w).1 = (false, none)) :
    (ensureDeviceChanges config w).2.1 = config ∧
    (ensureDeviceChanges config w).2.2 = w := by
  unfold ensureDeviceChanges at h ⊢
  rcases hloop : ensureDeviceChangesLoop config.id w config.changes
    with ⟨eo, upd, refs, w1⟩
  rw [hloop] at h
  cases eo with
  | some e => simp at h
  | none =>
    cases upd with
    | true =>
      dsimp only at h ⊢
      rcases hup : netUpdate w1 { config with changes := refs } with ⟨e2, w2⟩
      rw [hup] at h
      cases e2 with
      | some e3 => simp at h
      | none => simp at h
    | false =>
      dsimp only at h ⊢
      have hn : (ensureDeviceChangesLoop config.id w config.changes).1 = none := by
        rw [hloop]
      have hu : (ensureDeviceChangesLoop config.id w config.changes).2.1 = false := by
        rw [hloop]
      obtain ⟨ha, hb⟩ :=
        ensureDeviceChangesLoop_notUpdated config.id config.changes w hn hu
      rw [hloop] at ha hb
      dsimp only at ha hb
      subst ha
      subst hb
      exact ⟨rfl, rfl⟩

theorem netUpdate_netGet_self (w : W) (c2 e : NetworkChange)
    (hget : netGet w c2.id = some e) :
    ∃ c3, netGet (netUpdate w c2).2 c2.id = some c3 ∧ (c3 = c2 ∨ c3 = e) := by
  rw [netUpdate_eq]
  by_cases hf : (takeFault w).1
  · rw [if_pos hf]
    refine ⟨e, ?_, Or.inr rfl⟩
    rw [netGet_congr (takeFault w).2 w (by rw [takeFault_stores])]
    exact hget
  · rw [if_neg hf]
    unfold netUpdateCommit
    split
    · next hrep =>
      dsimp only
      refine ⟨e, ?_, Or.inr rfl⟩
      rw [netGet_congr (takeFault w).2 w (by rw [takeFault_stores])]
      exact hget
    · next l hrep =>
      dsimp only
      refine ⟨c2, ?_, Or.inl rfl⟩
      unfold netGet
      dsimp only
      exact replaceNet_find_self c2 _ l hrep

theorem ensureDeviceChanges_netGet_status (config : NetworkChange) (w : W)
    (hget : netGet w config.id = some config) :
    ∃ c2, netGet (ensureDeviceChanges config w).2.2 config.id = some c2 ∧
      c2.status = config.status := by
  unfold ensureDeviceChanges
  have hnetp := ensureDeviceChangesLoop_net config.id config.changes w
  rcases hloop : ensureDeviceChangesLoop config.id w config.changes
    with ⟨eo, upd, refs, w1⟩
  rw [hloop] at hnetp
  have hget1 : netGet w1 config.id = some config := by
    rw [netGet_congr w1 w hnetp]
    exact hget
  cases eo with
  | some e =>
    dsimp only
    exact ⟨config, hget1, rfl⟩
  | none =>
    cases upd with
    | true =>
      dsimp only
      obtain ⟨c3, hc3, hor⟩ :=
        netUpdate_netGet_self w1 { config with changes := refs } config hget1
      rcases hup : netUpdate w1 { config with changes := refs } with ⟨e2, w2⟩
      rw [hup] at hc3
      have hc4 : netGet w2 config.id = some c3 := hc3
      cases e2 with
      | some e3 =>
        dsimp only
        refine ⟨c3, hc4, ?_⟩
        rcases hor with hh | hh <;> rw [hh]
      | none =>
        dsimp only
        refine ⟨c3, hc4, ?_⟩
        rcases hor with hh | hh <;> rw [hh]
    | false =>
      dsimp only
      exact ⟨config, hget1, rfl⟩

/-- C1: for overlapping NetworkChanges at indexes i < j with the change at
index i still PENDING or RUNNING, the admission scan rejects the change at
index j (given the documented changeIndex invariant), and Reconcile leaves
the status of that change untouched; in particular it does not move from
PENDING to RUNNING. -/
theorem claim_C1 (r : Reconciler) (w : W) (c ci : NetworkChange) (i cid : Nat)
    (hInv : Inv r w)
    (hget : netGet w cid = some c)
    (hphase : c.status.phase = Phase.CHANGE)
    (hstate : c.status.state = ChangeState.PENDING)
    (hij : i < c.index)
    (hgi : netGetByIndex w i = some ci)
    (hci : ci.status.state = ChangeState.PENDING ∨
      ci.status.state = ChangeState.RUNNING)
    (hint : isIntersectingChange c ci = true) :
    (canApplyChange c r w).1 = false ∧
    ∃ c2, netGet (Reconcile r w cid).2.2 cid = some c2 ∧ c2.status = c.status := by
  have hcid : c.id = cid := by
    have := List.find?_some hget
    simpa using this
  have hle : r.changeIndex ≤ i := by
    by_contra hlt
    have hterm := hInv i (by omega) ci hgi
    rcases hterm with h | h <;> rcases hci with h2 | h2 <;>
      rw [h2] at h <;> cases h
  have hfalse : (canApplyChange c r w).1 = false := by
    unfold canApplyChange
    rw [canApplyChangeFrom_false_iff]
    exact ⟨i, by omega, by omega, ci, hgi, hci, hint⟩
  refine ⟨hfalse, ?_⟩
  have hstat := ensureDeviceChanges_netGet_status c w (by rw [hcid]; exact hget)
  unfold Reconcile
  rw [hget]
  dsimp only
  rcases hed : ensureDeviceChanges c w with ⟨⟨succeeded, e⟩, change2, w1⟩
  rw [hed] at hstat
  dsimp only at hstat ⊢
  rw [hcid] at hstat
  by_cases hcond : (succeeded || e.isSome) = true
  · rw [if_pos hcond]
    exact hstat
  · rw [if_neg hcond]
    have hsf : succeeded = false := by
      cases succeeded
      · rfl
      · simp at hcond
    have hef : e = none := by
      cases e
      · rfl
      · simp at hcond
    subst hsf
    subst hef
    obtain ⟨hc2, hw1⟩ := ensureDeviceChanges_continue c w (by rw [hed])
    rw [hed] at hc2 hw1
    dsimp only at hc2 hw1
    rw [hc2, hw1]
    rw [hphase]
    dsimp only
    unfold reconcileChange
    rw [hstate]
    dsimp only
    unfold reconcilePendingChange
    rcases hca : canApplyChange c r w with ⟨b, r1⟩
    rw [hca] at hfalse
    dsimp only at hfalse
    subst hfalse
    dsimp only
    simp only [Bool.not_false, if_pos]
    exact ⟨c, hget, rfl⟩

/-- With changeIndex 0 the changeIndex invariant holds vacuously. -/
theorem Inv_zero (w : W) : Inv ⟨0⟩ w :=
  fun k hk _ _ => absurd hk (Nat.not_lt_zero k)

/-- Fixture for the C1 witness: two overlapping changes at indexes 0 and 1,
the earlier one RUNNING, the later one PENDING. -/
def c1wA : NetworkChange :=
  ⟨1, 0, [⟨1, 1, "d1", "v1", 0⟩],
    ⟨Phase.CHANGE, ChangeState.RUNNING, Reason.NONE⟩⟩

def c1wB : NetworkChange :=
  ⟨2, 1, [⟨2, 2, "d1", "v1", 0⟩],
    ⟨Phase.CHANGE, ChangeState.PENDING, Reason.NONE⟩⟩

def c1wW : W := ⟨⟨[c1wA, c1wB], [], 1⟩, []⟩

theorem claim_C1_witness :
    Inv ⟨0⟩ c1wW ∧
    ((canApplyChange c1wB ⟨0⟩ c1wW).1 = false ∧
      ∃ c2, netGet (Reconcile ⟨0⟩ c1wW 2).2.2 2 = some c2 ∧
        c2.status = c1wB.status) :=
  ⟨Inv_zero c1wW,
    claim_C1 ⟨0⟩ c1wW c1wB c1wA 0 2 (Inv_zero c1wW) (by decide) (by decide)
      (by decide) (by decide) (by decide) (by decide) (by decide)⟩

/-! ## changeIndex invariant machinery (C9) -/

theorem terminal_of_not_inflight {s : ChangeState}
    (h : ¬(s = ChangeState.PENDING ∨ s = ChangeState.RUNNING)) : terminal s := by
  cases s with
  | PENDING => exact absurd (Or.inl rfl) h
  | RUNNING => exact absurd (Or.inr rfl) h
  | COMPLETE => exact Or.inl rfl
  | FAILED => exact Or.inr rfl

theorem canApplyChangeFrom_inv (c : NetworkChange) (w : W) :
    ∀ fuel index seq r,
      r.changeIndex ≤ index →
      Inv r w →
      (seq = true → ∀ k, k < index → ∀ p, netGetByIndex w k = some p →
        terminal p.status.state) →
      r.changeIndex ≤ (canApplyChangeFrom c w seq r index fuel).2.changeIndex ∧
      Inv (canApplyChangeFrom c w seq r index fuel).2 w := by
  intro fuel
  induction fuel with
  | zero =>
    intro index seq r hle hInv hseq
    exact ⟨le_refl _, hInv⟩
  | succ fuel ih =>
    intro index seq r hle hInv hseq
    simp only [canApplyChangeFrom]
    cases hg : netGetByIndex w index with
    | none =>
      refine ih (index + 1) seq r (by omega) hInv ?_
      intro hs k hk p hp
      by_cases hki : k = index
      · rw [hki, hg] at hp; cases hp
      · exact hseq hs k (by omega) p hp
    | some prior =>
      dsimp only
      by_cases hs : prior.status.state = ChangeState.PENDING ∨
          prior.status.state = ChangeState.RUNNING
      · rw [if_pos hs]
        by_cases hi : isIntersectingChange c prior = true
        · rw [if_pos hi]
          exact ⟨le_refl _, hInv⟩
        · rw [if_neg hi]
          refine ih (index + 1) false r (by omega) hInv ?_
          intro hfalse
          cases hfalse
      · rw [if_neg hs]
        cases seq with
        | true =>
          rw [if_pos rfl]
          have hInv2 : Inv { r with changeIndex := r.changeIndex + 1 } w := by
            intro k hk p hp
            by_cases hkc : k < r.changeIndex
            · exact hInv k hkc p hp
            · have hkr : k = r.changeIndex := by
                dsimp only at hk
                omega
              by_cases hki : k = index
              · rw [hki, hg] at hp
                cases hp
                exact terminal_of_not_inflight hs
              · exact hseq rfl k (by omega) p hp
          have hrec := ih (index + 1) true { r with changeIndex := r.changeIndex + 1 }
            (by dsimp only; omega) hInv2 ?_
          · refine ⟨?_, hrec.2⟩
            have := hrec.1
            dsimp only at this
            omega
          · intro _ k hk p hp
            by_cases hki : k = index
            · rw [hki, hg] at hp
              cases hp
              exact terminal_of_not_inflight hs
            · exact hseq rfl k (by omega) p hp
        | false =>
          rw [if_neg (by simp)]
          refine ih (index + 1) false r (by omega) hInv ?_
          intro hfalse
          cases hfalse

theorem canApplyChange_inv (c : NetworkChange) (r : Reconciler) (w : W)
    (hInv : Inv r w) :
    r.changeIndex ≤ (canApplyChange c r w).2.changeIndex ∧
    Inv (canApplyChange c r w).2 w := by
  unfold canApplyChange
  exact canApplyChangeFrom_inv c w _ r.changeIndex true r (le_refl _) hInv
    (fun _ k hk p hp => hInv k hk p hp)

theorem netGetByIndex_congr (w1 w2 : W)
    (h : w1.stores.networkChanges = w2.stores.networkChanges) :
    ∀ k, netGetByIndex w1 k = netGetByIndex w2 k := by
  intro k
  unfold netGetByIndex
  rw [h]

theorem Inv_congr {r : Reconciler} {w1 w2 : W}
    (h : w1.stores.networkChanges = w2.stores.networkChanges)
    (hInv : Inv r w1) : Inv r w2 := by
  intro k hk p hp
  rw [← netGetByIndex_congr w1 w2 h] at hp
  exact hInv k hk p hp

theorem netWF_congr {w1 w2 : W}
    (h : w1.stores.networkChanges = w2.stores.networkChanges)
    (hwf : netWF w1) : netWF w2 := by
  unfold netWF at hwf ⊢
  rw [← h]
  exact hwf

theorem find?_index_of_mem :
    ∀ (l : List NetworkChange) (e : NetworkChange),
      (l.map (fun c => c.index)).Nodup → e ∈ l →
      l.find? (fun x => x.index == e.index) = some e := by
  intro l
  induction l with
  | nil => intro e _ hm; cases hm
  | cons x xs ih =>
    intro e hnd hm
    rw [List.map_cons, List.nodup_cons] at hnd
    cases hm with
    | head => simp [List.find?]
    | tail _ hm2 =>
      have hne : x.index ≠ e.index := by
        intro hc
        exact hnd.1 (hc ▸ List.mem_map_of_mem (fun c => c.index) hm2)
      rw [List.find?]
      rw [show (x.index == e.index) = false from by simpa using hne]
      exact ih e hnd.2 hm2

theorem replaceNet_find_index (c2 : NetworkChange) :
    ∀ l l' e, replaceNet c2 l = some l' →
      l.find? (fun x => x.id == c2.id) = some e →
      c2.index = e.index →
      ∀ k p, l'.find? (fun x => x.index == k) = some p →
        (p = c2 ∧ k = e.index) ∨ l.find? (fun x => x.index == k) = some p := by
  intro l
  induction l with
  | nil => intro l' e h; simp [replaceNet] at h
  | cons x xs ih =>
    intro l' e hrep hfind hidx k p hp
    simp only [replaceNet] at hrep
    by_cases hx : x.id == c2.id
    · rw [if_pos hx] at hrep
      cases hrep
      have hex : e = x := by
        rw [List.find?] at hfind
        rw [hx] at hfind
        cases hfind
        rfl
      subst hex
      rw [List.find?] at hp
      by_cases hc2k : c2.index == k
      · rw [hc2k] at hp
        cases hp
        refine Or.inl ⟨rfl, ?_⟩
        have : c2.index = k := by simpa using hc2k
        omega
      · rw [Bool.of_not_eq_true hc2k] at hp
        refine Or.inr ?_
        rw [List.find?]
        have hxk : (e.index == k) = false := by
          have h1 : c2.index ≠ k := by simpa using hc2k
          simp only [beq_eq_false_iff_ne]
          omega
        rw [hxk]
        exact hp
    · rw [if_neg (by simpa using hx)] at hrep
      cases hrec : replaceNet c2 xs with
      | none => rw [hrec] at hrep; simp at hrep
      | some xs0 =>
        rw [hrec] at hrep
        simp at hrep
        cases hrep
        rw [List.find?] at hfind
        rw [Bool.of_not_eq_true hx] at hfind
        rw [List.find?] at hp
        by_cases hxk : x.index == k
        · rw [hxk] at hp
          cases hp
          refine Or.inr ?_
          rw [List.find?, hxk]
        · rw [Bool.of_not_eq_true hxk] at hp
          rcases ih xs0 e hrec hfind hidx k p hp with h | h
          · exact Or.inl h
          · refine Or.inr ?_
            rw [List.find?, Bool.of_not_eq_true hxk]
            exact h

theorem replaceNet_maps (c2 : NetworkChange) :
    ∀ l l' e, replaceNet c2 l = some l' →
      l.find? (fun x => x.id == c2.id) = some e →
      c2.index = e.index →
      l'.map (fun c => c.id) = l.map (fun c => c.id) ∧
      l'.map (fun c => c.index) = l.map (fun c => c.index) := by
  intro l
  induction l with
  | nil => intro l' e h; simp [replaceNet] at h
  | cons x xs ih =>
    intro l' e hrep hfind hidx
    simp only [replaceNet] at hrep
    by_cases hx : x.id == c2.id
    · rw [if_pos hx] at hrep
      cases hrep
      have hex : e = x := by
        rw [List.find?] at hfind
        rw [hx] at hfind
        cases hfind
        rfl
      subst hex
      have hid : c2.id = e.id := (beq_iff_eq.mp hx).symm
      constructor
      · simp only [List.map_cons]
        rw [hid]
      · simp only [List.map_cons]
        rw [hidx]
    · rw [if_neg (by simpa using hx)] at hrep
      cases hrec : replaceNet c2 xs with
      | none => rw [hrec] at hrep; simp at hrep
      | some xs0 =>
        rw [hrec] at hrep
        simp at hrep
        cases hrep
        rw [List.find?] at hfind
        rw [Bool.of_not_eq_true hx] at hfind
        obtain ⟨h1, h2⟩ := ih xs0 e hrec hfind hidx
        constructor
        · simp only [List.map_cons]
          rw [h1]
        · simp only [List.map_cons]
          rw [h2]

theorem netUpdate_getByIndex {w : W} {c2 e : NetworkChange} {eo : Option Err}
    {w2 : W} (hup : netUpdate w c2 = (eo, w2))
    (hget : netGet w c2.id = some e)
    (hidx : c2.index = e.index) :
    ∀ k p, netGetByIndex w2 k = some p →
      (p = c2 ∧ k = e.index) ∨ netGetByIndex w k = some p := by
  have hnc : (takeFault w).2.stores.networkChanges = w.stores.networkChanges := by
    rw [takeFault_stores]
  rw [netUpdate_eq] at hup
  by_cases hf : (takeFault w).1
  · rw [if_pos hf] at hup
    cases hup
    intro k p hp
    right
    rw [← netGetByIndex_congr (takeFault w).2 w hnc]
    exact hp
  · rw [if_neg hf] at hup
    unfold netUpdateCommit at hup
    cases hrep : replaceNet c2 (takeFault w).2.stores.networkChanges with
    | none =>
      rw [hrep] at hup
      cases hup
      intro k p hp
      right
      rw [← netGetByIndex_congr (takeFault w).2 w hnc]
      exact hp
    | some l =>
      rw [hrep] at hup
      cases hup
      intro k p hp
      have hfind : l.find? (fun x => x.index == k) = some p := hp
      have hget2 : ((takeFault w).2.stores.networkChanges).find?
          (fun x => x.id == c2.id) = some e := by
        rw [hnc]
        exact hget
      rcases replaceNet_find_index c2 _ l e hrep hget2 hidx k p hfind with h | h
      · exact Or.inl h
      · right
        unfold netGetByIndex
        rw [← hnc]
        exact h

theorem netUpdate_WF {w : W} {c2 e : NetworkChange} {eo : Option Err} {w2 : W}
    (hup : netUpdate w c2 = (eo, w2))
    (hget : netGet w c2.id = some e)
    (hidx : c2.index = e.index)
    (hwf : netWF w) : netWF w2 := by
  have hnc : (takeFault w).2.stores.networkChanges = w.stores.networkChanges := by
    rw [takeFault_stores]
  rw [netUpdate_eq] at hup
  by_cases hf : (takeFault w).1
  · rw [if_pos hf] at hup
    cases hup
    exact netWF_congr hnc.symm hwf
  · rw [if_neg hf] at hup
    unfold netUpdateCommit at hup
    cases hrep : replaceNet c2 (takeFault w).2.stores.networkChanges with
    | none =>
      rw [hrep] at hup
      cases hup
      exact netWF_congr hnc.symm hwf
    | some l =>
      rw [hrep] at hup
      cases hup
      have hget2 : ((takeFault w).2.stores.networkChanges).find?
          (fun x => x.id == c2.id) = some e := by
        rw [hnc]
        exact hget
      obtain ⟨h1, h2⟩ := replaceNet_maps c2 _ l e hrep hget2 hidx
      unfold netWF at hwf ⊢
      dsimp only
      rw [hnc] at h1 h2
      rw [h1, h2]
      exact hwf

theorem netUpdate_preserves {r : Reconciler} {w : W} {c2 e : NetworkChange}
    {eo : Option Err} {w2 : W}
    (hup : netUpdate w c2 = (eo, w2))
    (hget : netGet w c2.id = some e)
    (hidx : c2.index = e.index)
    (hsafe : terminal e.status.state → terminal c2.status.state)
    (hwf : netWF w) (hInv : Inv r w) :
    Inv r w2 ∧ netWF w2 := by
  refine ⟨?_, netUpdate_WF hup hget hidx hwf⟩
  intro k hk p hp
  rcases netUpdate_getByIndex hup hget hidx k p hp with ⟨hpc, hke⟩ | h
  · subst hpc
    have hmem : e ∈ w.stores.networkChanges := List.mem_of_find?_eq_some hget
    have hgbi : netGetByIndex w e.index = some e :=
      find?_index_of_mem _ e hwf.2 hmem
    have hterm := hInv e.index (by omega) e hgbi
    exact hsafe hterm
  · exact hInv k hk p h

theorem ensureDeviceChangesRunningLoop_net :
    ∀ ds (w : W) acc,
      ((ensureDeviceChangesRunningLoop w acc ds).2).stores.networkChanges
        = w.stores.networkChanges := by
  intro ds
  induction ds with
  | nil => intro w acc; rfl
  | cons d rest ih =>
    intro w acc
    simp only [ensureDeviceChangesRunningLoop]
    by_cases hd : d.status.state = ChangeState.PENDING
    · rw [if_pos hd]
      split
      · next e w1 hupd =>
        dsimp only
        exact devUpdate_net hupd
      · next w1 hupd =>
        exact (ih w1 true).trans (devUpdate_net hupd)
    · rw [if_neg hd]
      exact ih w acc

theorem ensureDeviceChangeRollbacksRunningLoop_net :
    ∀ ds (w : W) acc,
      ((ensureDeviceChangeRollbacksRunningLoop w acc ds).2).stores.networkChanges
        = w.stores.networkChanges := by
  intro ds
  induction ds with
  | nil => intro w acc; rfl
  | cons d rest ih =>
    intro w acc
    simp only [ensureDeviceChangeRollbacksRunningLoop]
    split
    · split
      · next e w1 hupd =>
        dsimp only
        exact devUpdate_net hupd
      · next w1 hupd =>
        exact (ih w1 true).trans (devUpdate_net hupd)
    · exact ih w acc

theorem ensureDeviceRollbacksLoop_net :
    ∀ refs (w : W) acc,
      ((ensureDeviceRollbacksLoop w acc refs).2).stores.networkChanges
        = w.stores.networkChanges := by
  intro refs
  induction refs with
  | nil => intro w acc; rfl
  | cons ref rest ih =>
    intro w acc
    simp only [ensureDeviceRollbacksLoop]
    cases hdg : devGet w ref.id with
    | error e => rfl
    | ok dc =>
      dsimp only
      split
      · split
        · next e w1 hupd =>
          dsimp only
          exact devUpdate_net hupd
        · next w1 hupd =>
          exact (ih w1 true).trans (devUpdate_net hupd)
      · exact ih w acc

theorem ensureDeviceRollbacksRunningLoop_net :
    ∀ refs (w : W) acc,
      ((ensureDeviceRollbacksRunningLoop w acc refs).2).stores.networkChanges
        = w.stores.networkChanges := by
  intro refs
  induction refs with
  | nil => intro w acc; rfl
  | cons ref rest ih =>
    intro w acc
    simp only [ensureDeviceRollbacksRunningLoop]
    cases hdg : devGet w ref.id with
    | error e => rfl
    | ok dc =>
      dsimp only
      split
      · split
        · next e w1 hupd =>
          dsimp only
          exact devUpdate_net hupd
        · next w1 hupd =>
          exact (ih w1 true).trans (devUpdate_net hupd)
      · exact ih w acc


theorem ensureDeviceChanges_preserves {r : Reconciler} (c : NetworkChange) (w : W)
    (hget : netGet w c.id = some c) (hwf : netWF w) (hInv : Inv r w) :
    Inv r (ensureDeviceChanges c w).2.2 ∧ netWF (ensureDeviceChanges c w).2.2 := by
  unfold ensureDeviceChanges
  have hnetp := ensureDeviceChangesLoop_net c.id c.changes w
  rcases hloop : ensureDeviceChangesLoop c.id w c.changes with ⟨eo, upd, refs, w1⟩
  rw [hloop] at hnetp
  have hInv1 : Inv r w1 := Inv_congr hnetp.symm hInv
  have hwf1 : netWF w1 := netWF_congr hnetp.symm hwf
  have hget1 : netGet w1 c.id = some c := by
    rw [netGet_congr w1 w hnetp]
    exact hget
  cases eo with
  | some e => exact ⟨hInv1, hwf1⟩
  | none =>
    cases upd with
    | true =>
      dsimp only
      rw [if_pos rfl]
      split
      · next e2 w2 hup =>
        exact netUpdate_preserves (r := r) hup hget1 rfl (fun ht => ht) hwf1 hInv1
      · next w2 hup =>
        exact netUpdate_preserves (r := r) hup hget1 rfl (fun ht => ht) hwf1 hInv1
    | false => exact ⟨hInv1, hwf1⟩

theorem reconcilePendingChange_preserves (c : NetworkChange) (r : Reconciler)
    (w : W) (hget : netGet w c.id = some c)
    (hpend : c.status.state = ChangeState.PENDING)
    (hwf : netWF w) (hInv : Inv r w) :
    r.changeIndex ≤ (reconcilePendingChange c r w).2.1.changeIndex ∧
    Inv (reconcilePendingChange c r w).2.1 (reconcilePendingChange c r w).2.2 ∧
    netWF (reconcilePendingChange c r w).2.2 := by
  unfold reconcilePendingChange
  have hca := canApplyChange_inv c r w hInv
  rcases hcae : canApplyChange c r w with ⟨b, r1⟩
  rw [hcae] at hca
  dsimp only at hca
  cases b with
  | false =>
    dsimp only
    rw [if_pos (show (!false) = true from rfl)]
    exact ⟨hca.1, hca.2, hwf⟩
  | true =>
    dsimp only
    rw [if_neg (show ¬(!true) = true from by decide)]
    have hsafe : terminal c.status.state → False := by
      intro ht
      rw [hpend] at ht
      rcases ht with h | h <;> cases h
    split
    · next e2 w2 hup =>
      exact ⟨hca.1,
        netUpdate_preserves (r := r1) hup hget rfl
          (fun ht => absurd ht hsafe) hwf hca.2⟩
    · next w2 hup =>
      exact ⟨hca.1,
        netUpdate_preserves (r := r1) hup hget rfl
          (fun ht => absurd ht hsafe) hwf hca.2⟩

theorem reconcileRunningChange_preserves {r : Reconciler} (c : NetworkChange)
    (w : W) (hget : netGet w c.id = some c)
    (hrun : c.status.state = ChangeState.RUNNING)
    (hwf : netWF w) (hInv : Inv r w) :
    Inv r (reconcileRunningChange c w).2 ∧
    netWF (reconcileRunningChange c w).2 := by
  have hnoterm : terminal c.status.state → False := by
    intro ht
    rw [hrun] at ht
    rcases ht with h | h <;> cases h
  unfold reconcileRunningChange
  cases hgd : getDeviceChanges c w with
  | error e => exact ⟨hInv, hwf⟩
  | ok ds =>
    dsimp only
    have hn1p := ensureDeviceChangesRunningLoop_net ds w false
    rcases her : ensureDeviceChangesRunning ds w with ⟨⟨succ, e⟩, w1⟩
    have hn1 : w1.stores.networkChanges = w.stores.networkChanges := by
      unfold ensureDeviceChangesRunning at her
      rw [her] at hn1p
      exact hn1p
    have hInv1 : Inv r w1 := Inv_congr hn1.symm hInv
    have hwf1 : netWF w1 := netWF_congr hn1.symm hwf
    have hget1 : netGet w1 c.id = some c := by
      rw [netGet_congr w1 w hn1]
      exact hget
    by_cases hcond : (succ || e.isSome) = true
    · rw [if_pos hcond]
      exact ⟨hInv1, hwf1⟩
    · rw [if_neg hcond]
      by_cases hcomp : isDeviceChangesComplete ds = true
      · rw [if_pos hcomp]
        dsimp only
        split
        · next e2 w2 hup =>
          exact netUpdate_preserves (r := r) hup hget1 rfl
            (fun _ => Or.inl rfl) hwf1 hInv1
        · next w2 hup =>
          exact netUpdate_preserves (r := r) hup hget1 rfl
            (fun _ => Or.inl rfl) hwf1 hInv1
      · rw [if_neg hcomp]
        by_cases hfail : isDeviceChangesFailed ds = true
        · rw [if_pos hfail]
          have hn2p := ensureDeviceChangeRollbacksRunningLoop_net ds w1 false
          rcases hrb : ensureDeviceChangeRollbacksRunning ds w1 with ⟨⟨s2, e2⟩, w2⟩
          have hn2 : w2.stores.networkChanges = w1.stores.networkChanges := by
            unfold ensureDeviceChangeRollbacksRunning at hrb
            rw [hrb] at hn2p
            exact hn2p
          have hInv2 : Inv r w2 := Inv_congr hn2.symm hInv1
          have hwf2 : netWF w2 := netWF_congr hn2.symm hwf1
          have hget2 : netGet w2 c.id = some c := by
            rw [netGet_congr w2 w1 hn2]
            exact hget1
          by_cases hcond2 : (s2 || e2.isSome) = true
          · rw [if_pos hcond2]
            exact ⟨hInv2, hwf2⟩
          · rw [if_neg hcond2]
            by_cases hrc : isDeviceChangeRollbacksComplete ds = true
            · rw [if_pos hrc]
              dsimp only
              split
              · next e3 w3 hup =>
                exact netUpdate_preserves (r := r) hup hget2 rfl
                  (fun ht => absurd ht hnoterm) hwf2 hInv2
              · next w3 hup =>
                exact netUpdate_preserves (r := r) hup hget2 rfl
                  (fun ht => absurd ht hnoterm) hwf2 hInv2
            · rw [if_neg hrc]
              exact ⟨hInv2, hwf2⟩
        · rw [if_neg hfail]
          exact ⟨hInv1, hwf1⟩

theorem reconcilePendingRollback_preserves {r : Reconciler} (c : NetworkChange)
    (w : W) (hget : netGet w c.id = some c)
    (hpend : c.status.state = ChangeState.PENDING)
    (hwf : netWF w) (hInv : Inv r w) :
    Inv r (reconcilePendingRollback c w).2 ∧
    netWF (reconcilePendingRollback c w).2 := by
  have hnoterm : terminal c.status.state → False := by
    intro ht
    rw [hpend] at ht
    rcases ht with h | h <;> cases h
  unfold reconcilePendingRollback
  rcases hcr : canApplyRollback c w with ⟨b, eo⟩
  cases eo with
  | some e => exact ⟨hInv, hwf⟩
  | none =>
    cases b with
    | false =>
      dsimp only
      rw [if_pos (show (!false) = true from rfl)]
      exact ⟨hInv, hwf⟩
    | true =>
      dsimp only
      rw [if_neg (show ¬(!true) = true from by decide)]
      split
      · next e2 w2 hup =>
        exact netUpdate_preserves (r := r) hup hget rfl
          (fun ht => absurd ht hnoterm) hwf hInv
      · next w2 hup =>
        exact netUpdate_preserves (r := r) hup hget rfl
          (fun ht => absurd ht hnoterm) hwf hInv

theorem reconcileRunningRollback_preserves {r : Reconciler} (c : NetworkChange)
    (w : W) (hget : netGet w c.id = some c)
    (hwf : netWF w) (hInv : Inv r w) :
    Inv r (reconcileRunningRollback c w).2 ∧
    netWF (reconcileRunningRollback c w).2 := by
  unfold reconcileRunningRollback
  have hn1p := ensureDeviceRollbacksRunningLoop_net c.changes w false
  rcases hdr : ensureDeviceRollbacksRunning c w with ⟨⟨s, e⟩, w1⟩
  have hn1 : w1.stores.networkChanges = w.stores.networkChanges := by
    unfold ensureDeviceRollbacksRunning at hdr
    rw [hdr] at hn1p
    exact hn1p
  have hInv1 : Inv r w1 := Inv_congr hn1.symm hInv
  have hwf1 : netWF w1 := netWF_congr hn1.symm hwf
  have hget1 : netGet w1 c.id = some c := by
    rw [netGet_congr w1 w hn1]
    exact hget
  dsimp only
  by_cases hcond : (s || e.isSome) = true
  · rw [if_pos hcond]
    exact ⟨hInv1, hwf1⟩
  · rw [if_neg hcond]
    rcases hirc : isRollbackComplete c w1 with ⟨comp, eo⟩
    cases eo with
    | some e2 => exact ⟨hInv1, hwf1⟩
    | none =>
      cases comp with
      | false =>
        dsimp only
        rw [if_pos (show (!false) = true from rfl)]
        exact ⟨hInv1, hwf1⟩
      | true =>
        dsimp only
        rw [if_neg (show ¬(!true) = true from by decide)]
        split
        · next e2 w2 hup =>
          exact netUpdate_preserves (r := r) hup hget1 rfl
            (fun _ => Or.inl rfl) hwf1 hInv1
        · next w2 hup =>
          exact netUpdate_preserves (r := r) hup hget1 rfl
            (fun _ => Or.inl rfl) hwf1 hInv1

theorem reconcileRollback_preserves {r : Reconciler} (c : NetworkChange)
    (w : W) (hget : netGet w c.id = some c)
    (hwf : netWF w) (hInv : Inv r w) :
    Inv r (reconcileRollback c w).2 ∧
    netWF (reconcileRollback c w).2 := by
  unfold reconcileRollback
  have hn1p := ensureDeviceRollbacksLoop_net c.changes w false
  rcases herb : ensureDeviceRollbacks c w with ⟨⟨upd, e⟩, w1⟩
  have hn1 : w1.stores.networkChanges = w.stores.networkChanges := by
    unfold ensureDeviceRollbacks at herb
    rw [herb] at hn1p
    exact hn1p
  have hInv1 : Inv r w1 := Inv_congr hn1.symm hInv
  have hwf1 : netWF w1 := netWF_congr hn1.symm hwf
  have hget1 : netGet w1 c.id = some c := by
    rw [netGet_congr w1 w hn1]
    exact hget
  dsimp only
  by_cases hcond : (upd || e.isSome) = true
  · rw [if_pos hcond]
    exact ⟨hInv1, hwf1⟩
  · rw [if_neg hcond]
    cases hst : c.status.state with
    | PENDING => exact reconcilePendingRollback_preserves c w1 hget1 hst hwf1 hInv1
    | RUNNING => exact reconcileRunningRollback_preserves c w1 hget1 hwf1 hInv1
    | COMPLETE => exact ⟨hInv1, hwf1⟩
    | FAILED => exact ⟨hInv1, hwf1⟩

theorem Reconcile_preserves (r : Reconciler) (w : W) (id : Nat)
    (hwf : netWF w) (hInv : Inv r w) :
    r.changeIndex ≤ (Reconcile r w id).2.1.changeIndex ∧
    Inv (Reconcile r w id).2.1 (Reconcile r w id).2.2 ∧
    netWF (Reconcile r w id).2.2 := by
  unfold Reconcile
  cases hget : netGet w id with
  | none => exact ⟨le_refl _, hInv, hwf⟩
  | some c =>
    have hcid : c.id = id := by
      have := List.find?_some hget
      simpa using this
    have hget2 : netGet w c.id = some c := by
      rw [hcid]
      exact hget
    dsimp only
    have hpres := ensureDeviceChanges_preserves (r := r) c w hget2 hwf hInv
    rcases hed : ensureDeviceChanges c w with ⟨⟨succ, e⟩, c2, w1⟩
    rw [hed] at hpres
    dsimp only at hpres
    by_cases hcond : (succ || e.isSome) = true
    · rw [if_pos hcond]
      exact ⟨le_refl _, hpres.1, hpres.2⟩
    · rw [if_neg hcond]
      have hsf : succ = false := by
        cases succ
        · rfl
        · simp at hcond
      have hef : e = none := by
        cases e
        · rfl
        · simp at hcond
      subst hsf
      subst hef
      obtain ⟨hc2, hw1⟩ := ensureDeviceChanges_continue c w (by rw [hed])
      rw [hed] at hc2 hw1
      dsimp only at hc2 hw1
      rw [hc2, hw1]
      cases hph : c.status.phase with
      | CHANGE =>
        dsimp only
        unfold reconcileChange
        cases hst : c.status.state with
        | PENDING =>
          exact reconcilePendingChange_preserves c r w hget2 hst hwf hInv
        | RUNNING =>
          dsimp only
          obtain ⟨h1, h2⟩ := reconcileRunningChange_preserves (r := r) c w
            hget2 hst hwf hInv
          exact ⟨le_refl _, h1, h2⟩
        | COMPLETE => exact ⟨le_refl _, hInv, hwf⟩
        | FAILED => exact ⟨le_refl _, hInv, hwf⟩
      | ROLLBACK =>
        dsimp only
        obtain ⟨h1, h2⟩ := reconcileRollback_preserves (r := r) c w hget2 hwf hInv
        exact ⟨le_refl _, h1, h2⟩

theorem ReconcileSeq_preserves :
    ∀ ids (r : Reconciler) (w : W), netWF w → Inv r w →
      netWF (ReconcileSeq ids (r, w)).2 ∧
      Inv (ReconcileSeq ids (r, w)).1 (ReconcileSeq ids (r, w)).2 := by
  intro ids
  induction ids with
  | nil => intro r w hwf hInv; exact ⟨hwf, hInv⟩
  | cons id ids ih =>
    intro r w hwf hInv
    simp only [ReconcileSeq]
    obtain ⟨h1, h2, h3⟩ := Reconcile_preserves r w id hwf hInv
    exact ih (Reconcile r w id).2.1 (Reconcile r w id).2.2 h3 h2

/-- C9: across any sequence of Reconcile calls in one process lifetime
(starting from changeIndex 0), the next call never decreases changeIndex,
and after the call changeIndex is at most the index of every non-terminal
NetworkChange in the store. -/
theorem claim_C9 (ids : List Nat) (id : Nat) (w0 : W) (hwf : netWF w0) :
    (ReconcileSeq ids (⟨0⟩, w0)).1.changeIndex ≤
      (Reconcile (ReconcileSeq ids (⟨0⟩, w0)).1
        (ReconcileSeq ids (⟨0⟩, w0)).2 id).2.1.changeIndex ∧
    ∀ m p, netGetByIndex
        (Reconcile (ReconcileSeq ids (⟨0⟩, w0)).1
          (ReconcileSeq ids (⟨0⟩, w0)).2 id).2.2 m = some p →
      ¬ terminal p.status.state →
      (Reconcile (ReconcileSeq ids (⟨0⟩, w0)).1
        (ReconcileSeq ids (⟨0⟩, w0)).2 id).2.1.changeIndex ≤ m := by
  obtain ⟨hwfs, hinvs⟩ := ReconcileSeq_preserves ids ⟨0⟩ w0 hwf (Inv_zero w0)
  obtain ⟨h1, h2, h3⟩ := Reconcile_preserves _ _ id hwfs hinvs
  refine ⟨h1, ?_⟩
  intro m p hp hnt
  by_contra hlt
  exact hnt (h2 m (by omega) p hp)

/-- Fixture for the C9 witness. -/
def c9wW : W :=
  ⟨⟨[⟨1, 0, [⟨1, 1, "d1", "v1", 0⟩],
      ⟨Phase.CHANGE, ChangeState.PENDING, Reason.NONE⟩⟩], [], 1⟩, []⟩

theorem claim_C9_witness :
    netWF c9wW ∧
    ((ReconcileSeq [1] (⟨0⟩, c9wW)).1.changeIndex ≤
      (Reconcile (ReconcileSeq [1] (⟨0⟩, c9wW)).1
        (ReconcileSeq [1] (⟨0⟩, c9wW)).2 1).2.1.changeIndex ∧
    ∀ m p, netGetByIndex
        (Reconcile (ReconcileSeq [1] (⟨0⟩, c9wW)).1
          (ReconcileSeq [1] (⟨0⟩, c9wW)).2 1).2.2 m = some p →
      ¬ terminal p.status.state →
      (Reconcile (ReconcileSeq [1] (⟨0⟩, c9wW)).1
        (ReconcileSeq [1] (⟨0⟩, c9wW)).2 1).2.1.changeIndex ≤ m) :=
  ⟨by decide, claim_C9 [1] 1 c9wW (by decide)⟩

/-! ## Fault-free execution lemmas (C5) -/

theorem takeFault_nil {w : W} (h : w.faults = []) : takeFault w = (false, w) := by
  cases w with
  | mk s fl =>
    dsimp only at h
    subst h
    rfl

theorem netUpdate_dev {w : W} {c2 : NetworkChange} {eo : Option Err} {w2 : W}
    (h : netUpdate w c2 = (eo, w2)) :
    w2.stores.deviceChanges = w.stores.deviceChanges ∧
    w2.stores.nextDeviceIndex = w.stores.nextDeviceIndex := by
  have hp : ((netUpdate w c2).2).stores.deviceChanges = w.stores.deviceChanges ∧
      ((netUpdate w c2).2).stores.nextDeviceIndex = w.stores.nextDeviceIndex := by
    rw [netUpdate_eq]
    by_cases hf : (takeFault w).1
    · rw [if_pos hf]
      dsimp only
      rw [takeFault_stores]
      exact ⟨rfl, rfl⟩
    · rw [if_neg hf]
      unfold netUpdateCommit
      split
      · dsimp only
        rw [takeFault_stores]
        exact ⟨rfl, rfl⟩
      · dsimp only
        rw [takeFault_stores]
        exact ⟨rfl, rfl⟩
  rw [h] at hp
  exact hp

theorem netUpdate_ok (w : W) (c2 e : NetworkChange)
    (hnil : w.faults = []) (hget : netGet w c2.id = some e) :
    ∃ w2, netUpdate w c2 = (none, w2) ∧ netGet w2 c2.id = some c2 ∧
      w2.stores.deviceChanges = w.stores.deviceChanges ∧ w2.faults = [] := by
  rw [netUpdate_eq, takeFault_nil hnil]
  dsimp only
  unfold netUpdateCommit
  obtain ⟨l, hl⟩ := replaceNet_of_find? c2 _ e hget
  rw [hl]
  dsimp only
  refine ⟨_, rfl, ?_, rfl, hnil⟩
  unfold netGet
  exact replaceNet_find_self c2 _ l hl

/-- Relation between a DeviceChangeRef before and after ensureDeviceChanges:
refs with a non-empty id are untouched; refs with an empty id receive the
store-assigned id and index of a DeviceChange created in `store` carrying
the ref's request and a (CHANGE, PENDING) status. -/
def refMaterialized (configID : Nat) (store : List DeviceChange)
    (ref ref2 : DeviceChangeRef) : Prop :=
  (ref.id ≠ 0 → ref2 = ref) ∧
  (ref.id = 0 → ref2.id ≠ 0 ∧
    ∃ d ∈ store, d.id = ref2.id ∧ d.index = ref2.index ∧
      d.deviceID = ref.deviceID ∧ d.deviceVersion = ref.deviceVersion ∧
      d.values = ref.values ∧ d.networkChangeID = configID ∧
      d.status = ⟨Phase.CHANGE, ChangeState.PENDING, Reason.NONE⟩)

theorem refMaterialized_mono {configID : Nat} {s1 s2 : List DeviceChange}
    (hsub : ∀ d, d ∈ s1 → d ∈ s2) {ref ref2 : DeviceChangeRef}
    (h : refMaterialized configID s1 ref ref2) :
    refMaterialized configID s2 ref ref2 := by
  refine ⟨h.1, fun h0 => ?_⟩
  obtain ⟨hne, d, hd, hrest⟩ := h.2 h0
  exact ⟨hne, d, hsub d hd, hrest⟩

theorem ensureDeviceChangesLoop_ok (configID : Nat) :
    ∀ refs (w : W), w.faults = [] → 0 < w.stores.nextDeviceIndex →
      (ensureDeviceChangesLoop configID w refs).1 = none ∧
      (ensureDeviceChangesLoop configID w refs).2.1
        = refs.any (fun ref => ref.id == 0) ∧
      (ensureDeviceChangesLoop configID w refs).2.2.2.faults = [] ∧
      (∃ suf, (ensureDeviceChangesLoop configID w refs).2.2.2.stores.deviceChanges
        = w.stores.deviceChanges ++ suf) ∧
      0 < (ensureDeviceChangesLoop configID w refs).2.2.2.stores.nextDeviceIndex ∧
      List.Forall₂
        (refMaterialized configID
          (ensureDeviceChangesLoop configID w refs).2.2.2.stores.deviceChanges)
        refs (ensureDeviceChangesLoop configID w refs).2.2.1 := by
  intro refs
  induction refs with
  | nil =>
    intro w hnil hpos
    refine ⟨rfl, rfl, hnil, ⟨[], by simp [ensureDeviceChangesLoop]⟩, hpos,
      List.Forall₂.nil⟩
  | cons ref rest ih =>
    intro w hnil hpos
    simp only [ensureDeviceChangesLoop]
    by_cases href : (ref.id == 0)
    · rw [if_pos href]
      have hrefid : ref.id = 0 := by simpa using href
      split
      · next e fst w1 hdc =>
        rw [devCreate_eq, takeFault_nil hnil] at hdc
        have hcontra : (none : Option Err) = some e :=
          congrArg (fun t => t.1) hdc
        exact Option.noConfusion hcontra
      · next dc2 w1 hdc =>
        rw [devCreate_eq, takeFault_nil hnil] at hdc
        have hdc2 : (⟨w.stores.nextDeviceIndex, w.stores.nextDeviceIndex,
              configID, ref.deviceID, ref.deviceVersion, ref.values,
              ⟨Phase.CHANGE, ChangeState.PENDING, Reason.NONE⟩⟩
              : DeviceChange) = dc2 :=
          congrArg (fun t => t.2.1) hdc
        have hw1' : (⟨⟨w.stores.networkChanges,
              w.stores.deviceChanges ++
                [⟨w.stores.nextDeviceIndex, w.stores.nextDeviceIndex,
                  configID, ref.deviceID, ref.deviceVersion, ref.values,
                  ⟨Phase.CHANGE, ChangeState.PENDING, Reason.NONE⟩⟩],
              w.stores.nextDeviceIndex + 1⟩, w.faults⟩ : W) = w1 :=
          congrArg (fun t => t.2.2) hdc
        have hw1 : w1.faults = w.faults ∧
            w1.stores.networkChanges = w.stores.networkChanges ∧
            w1.stores.deviceChanges = w.stores.deviceChanges ++ [dc2] ∧
            w1.stores.nextDeviceIndex = w.stores.nextDeviceIndex + 1 := by
          rw [← hw1', ← hdc2]
          exact ⟨rfl, rfl, rfl, rfl⟩
        have hfw1 : w1.faults = [] := by
          rw [hw1.1]
          exact hnil
        have hdev : w1.stores.deviceChanges
            = w.stores.deviceChanges ++ [dc2] := hw1.2.2.1
        have hnext : w1.stores.nextDeviceIndex
            = w.stores.nextDeviceIndex + 1 := hw1.2.2.2
        have hdcfields : dc2.id = w.stores.nextDeviceIndex ∧
            dc2.index = w.stores.nextDeviceIndex ∧
            dc2.networkChangeID = configID ∧
            dc2.deviceID = ref.deviceID ∧
            dc2.deviceVersion = ref.deviceVersion ∧
            dc2.values = ref.values ∧
            dc2.status = ⟨Phase.CHANGE, ChangeState.PENDING, Reason.NONE⟩ := by
          rw [← hdc2]
          exact ⟨rfl, rfl, rfl, rfl, rfl, rfl, rfl⟩
        obtain ⟨ih1, ih2, ih3, ⟨suf, ihsuf⟩, ih5, ih6⟩ :=
          ih w1 hfw1 (by rw [hnext]; omega)
        refine ⟨ih1, ?_, ih3, ?_, ih5, ?_⟩
        · rw [List.any_cons, href]
          rfl
        · refine ⟨dc2 :: suf, ?_⟩
          rw [ihsuf, hdev]
          simp
        · refine List.Forall₂.cons ?_ ih6
          constructor
          · intro hne
            exact absurd hrefid hne
          · intro _
            refine ⟨?_, dc2, ?_, rfl, rfl, hdcfields.2.2.2.1,
              hdcfields.2.2.2.2.1, hdcfields.2.2.2.2.2.1,
              hdcfields.2.2.1, hdcfields.2.2.2.2.2.2⟩
            · dsimp only
              rw [hdcfields.1]
              omega
            · rw [ihsuf, hdev]
              simp
    · rw [if_neg href]
      have hrefid : ref.id ≠ 0 := by simpa using href
      obtain ⟨ih1, ih2, ih3, ih4, ih5, ih6⟩ := ih w hnil hpos
      refine ⟨ih1, ?_, ih3, ih4, ih5, ?_⟩
      · rw [List.any_cons]
        rw [show (ref.id == 0) = false from by simpa using href]
        rw [ih2]
        rfl
      · refine List.Forall₂.cons ?_ ih6
        exact ⟨fun _ => rfl, fun h0 => absurd h0 hrefid⟩

theorem ensureDeviceChanges_ok (c : NetworkChange) (w : W)
    (hnil : w.faults = []) (hpos : 0 < w.stores.nextDeviceIndex)
    (hget : netGet w c.id = some c)
    (hany : c.changes.any (fun ref => ref.id == 0) = true) :
    ∃ refs w2,
      ensureDeviceChanges c w = ((true, none), { c with changes := refs }, w2) ∧
      netGet w2 c.id = some { c with changes := refs } ∧
      List.Forall₂ (refMaterialized c.id w2.stores.deviceChanges) c.changes refs ∧
      w2.faults = [] := by
  unfold ensureDeviceChanges
  have hok := ensureDeviceChangesLoop_ok c.id c.changes w hnil hpos
  have hnetp := ensureDeviceChangesLoop_net c.id c.changes w
  rcases hloop : ensureDeviceChangesLoop c.id w c.changes with ⟨eo, upd, refs, w1⟩
  rw [hloop] at hok hnetp
  dsimp only at hok hnetp
  obtain ⟨hok1, hok2, hok3, hok4, hok5, hok6⟩ := hok
  subst hok1
  rw [hany] at hok2
  subst hok2
  dsimp only
  rw [if_pos rfl]
  have hget1 : netGet w1 c.id = some c := by
    rw [netGet_congr w1 w hnetp]
    exact hget
  obtain ⟨w2, hup, hg2, hdev2, hf2⟩ :=
    netUpdate_ok w1 { c with changes := refs } c hok3 hget1
  rw [hup]
  refine ⟨refs, w2, rfl, hg2, ?_, hf2⟩
  rw [hdev2]
  exact hok6

/-- C5: if any ref of the fetched NetworkChange still has an empty id,
Reconcile (fault free) creates the missing children, copies the assigned
id and index back onto the refs, persists the parent and returns
(true, nil), leaving the parent's status untouched. -/
theorem claim_C5 (r : Reconciler) (w : W) (c : NetworkChange) (cid : Nat)
    (hnil : w.faults = []) (hpos : 0 < w.stores.nextDeviceIndex)
    (hget : netGet w cid = some c)
    (hsome : ∃ ref, ref ∈ c.changes ∧ ref.id = 0) :
    (Reconcile r w cid).1 = (true, none) ∧
    ∃ c2, netGet (Reconcile r w cid).2.2 cid = some c2 ∧
      c2.status = c.status ∧
      List.Forall₂
        (refMaterialized c.id (Reconcile r w cid).2.2.stores.deviceChanges)
        c.changes c2.changes := by
  have hcid : c.id = cid := by
    have := List.find?_some hget
    simpa using this
  have hany : c.changes.any (fun ref => ref.id == 0) = true := by
    obtain ⟨ref, hm, h0⟩ := hsome
    exact List.any_eq_true.mpr ⟨ref, hm, by simpa using h0⟩
  obtain ⟨refs, w2, hed, hg2, hfa, hf2⟩ :=
    ensureDeviceChanges_ok c w hnil hpos (by rw [hcid]; exact hget) hany
  unfold Reconcile
  rw [hget]
  dsimp only
  rw [hed]
  dsimp only
  rw [if_pos (show (true || (none : Option Err).isSome) = true from rfl)]
  refine ⟨rfl, { c with changes := refs }, ?_, rfl, hfa⟩
  rw [← hcid]
  exact hg2

/-- Fixture for the C5 witness: one network change with a single
not-yet-materialized ref. -/
def c5wW : W :=
  ⟨⟨[⟨1, 1, [⟨0, 0, "d1", "v1", 5⟩],
      ⟨Phase.CHANGE, ChangeState.PENDING, Reason.NONE⟩⟩], [], 1⟩, []⟩

def c5wC : NetworkChange :=
  ⟨1, 1, [⟨0, 0, "d1", "v1", 5⟩],
    ⟨Phase.CHANGE, ChangeState.PENDING, Reason.NONE⟩⟩

theorem claim_C5_witness :
    (∃ ref, ref ∈ c5wC.changes ∧ ref.id = 0) ∧
    ((Reconcile ⟨0⟩ c5wW 1).1 = (true, none) ∧
    ∃ c2, netGet (Reconcile ⟨0⟩ c5wW 1).2.2 1 = some c2 ∧
      c2.status = c5wC.status ∧
      List.Forall₂
        (refMaterialized c5wC.id (Reconcile ⟨0⟩ c5wW 1).2.2.stores.deviceChanges)
        c5wC.changes c2.changes) :=
  ⟨by decide,
    claim_C5 ⟨0⟩ c5wW c5wC 1 (by decide) (by decide) (by decide) (by decide)⟩

/-! ## Rollback-on-failure machinery (C2) -/

/-- The condition under which reconcileRunningChange rolls a child back:
still in the CHANGE phase and not FAILED (controller.go line 262). -/
def isRollbackTarget (d : DeviceChange) : Prop :=
  d.status.phase = Phase.CHANGE ∧ d.status.state ≠ ChangeState.FAILED

instance (d : DeviceChange) : Decidable (isRollbackTarget d) := by
  unfold isRollbackTarget; infer_instance

/-- The written child in the rollback-on-failure path: phase ROLLBACK,
state RUNNING, reason untouched. -/
def rolledBack (d : DeviceChange) : DeviceChange :=
  { d with status := ⟨Phase.ROLLBACK, ChangeState.RUNNING, d.status.reason⟩ }

theorem devGet_ok_self {w : W} {x : Nat} {d : DeviceChange}
    (h : devGet w x = Except.ok d) : d.id = x ∧ devGet w d.id = Except.ok d := by
  unfold devGet at h ⊢
  cases hf : w.stores.deviceChanges.find? (fun e => e.id == x) with
  | none => rw [hf] at h; cases h
  | some e =>
    rw [hf] at h
    cases h
    have hid : d.id = x := by
      have := List.find?_some hf
      simpa using this
    refine ⟨hid, ?_⟩
    rw [hid, hf]

theorem devUpdate_ok (w : W) (dc2 e : DeviceChange)
    (hnil : w.faults = []) (hget : devGet w dc2.id = Except.ok e) :
    ∃ w2, devUpdate w dc2 = (none, w2) ∧
      devGet w2 dc2.id = Except.ok dc2 ∧
      (∀ x, x ≠ dc2.id → devGet w2 x = devGet w x) ∧
      w2.faults = [] ∧
      w2.stores.networkChanges = w.stores.networkChanges := by
  rw [devUpdate_eq, takeFault_nil hnil]
  dsimp only
  unfold devUpdateCommit
  have hfind : w.stores.deviceChanges.find? (fun d => d.id == dc2.id) = some e := by
    unfold devGet at hget
    cases hf : w.stores.deviceChanges.find? (fun d => d.id == dc2.id) with
    | none => rw [hf] at hget; cases hget
    | some d2 => rw [hf] at hget; cases hget; rfl
  obtain ⟨l, hl⟩ := replaceDev_of_find? dc2 _ e hfind
  rw [hl]
  dsimp only
  refine ⟨_, rfl, ?_, ?_, hnil, rfl⟩
  · unfold devGet
    dsimp only
    rw [replaceDev_find_self dc2 _ l hl]
  · intro x hx
    unfold devGet
    dsimp only
    rw [replaceDev_find_other dc2 _ l x hl hx]

theorem ensureDeviceChangesLoop_noop (configID : Nat) :
    ∀ refs (w : W), (∀ ref ∈ refs, ref.id ≠ 0) →
      ensureDeviceChangesLoop configID w refs = (none, false, refs, w) := by
  intro refs
  induction refs with
  | nil => intro w _; rfl
  | cons ref rest ih =>
    intro w hne
    simp only [ensureDeviceChangesLoop]
    rw [if_neg (by simpa using hne ref (List.mem_cons_self ref rest))]
    rw [ih w (fun x hx => hne x (List.mem_cons_of_mem ref hx))]

theorem ensureDeviceChanges_noop (c : NetworkChange) (w : W)
    (hne : ∀ ref ∈ c.changes, ref.id ≠ 0) :
    ensureDeviceChanges c w = ((false, none), c, w) := by
  unfold ensureDeviceChanges
  rw [ensureDeviceChangesLoop_noop c.id c.changes w hne]
  dsimp only
  rw [if_neg (show ¬false = true from by decide)]

theorem ensureDeviceChangesRunningLoop_noop :
    ∀ ds (w : W) acc, (∀ d ∈ ds, d.status.state ≠ ChangeState.PENDING) →
      ensureDeviceChangesRunningLoop w acc ds = ((acc, none), w) := by
  intro ds
  induction ds with
  | nil => intro w acc _; rfl
  | cons d rest ih =>
    intro w acc hnp
    simp only [ensureDeviceChangesRunningLoop]
    rw [if_neg (hnp d (List.mem_cons_self d rest))]
    exact ih w acc (fun x hx => hnp x (List.mem_cons_of_mem d hx))

theorem ensureDeviceChangeRollbacksRunningLoop_noop :
    ∀ ds (w : W) acc, (∀ d ∈ ds, ¬ isRollbackTarget d) →
      ensureDeviceChangeRollbacksRunningLoop w acc ds = ((acc, none), w) := by
  intro ds
  induction ds with
  | nil => intro w acc _; rfl
  | cons d rest ih =>
    intro w acc hnt
    simp only [ensureDeviceChangeRollbacksRunningLoop]
    rw [if_neg (show ¬(d.status.phase = Phase.CHANGE ∧
      d.status.state ≠ ChangeState.FAILED) from hnt d (List.mem_cons_self d rest))]
    exact ih w acc (fun x hx => hnt x (List.mem_cons_of_mem d hx))

theorem getDeviceChangesLoop_present :
    ∀ refs (w : W) ds, getDeviceChangesLoop w refs = Except.ok ds →
      ∀ d ∈ ds, devGet w d.id = Except.ok d := by
  intro refs
  induction refs with
  | nil =>
    intro w ds h d hd
    simp only [getDeviceChangesLoop] at h
    cases h
    cases hd
  | cons ref rest ih =>
    intro w ds h d hd
    simp only [getDeviceChangesLoop] at h
    cases hdg : devGet w ref.id with
    | error e => rw [hdg] at h; cases h
    | ok d0 =>
      rw [hdg] at h
      cases hrec : getDeviceChangesLoop w rest with
      | error e => rw [hrec] at h; cases h
      | ok ds0 =>
        rw [hrec] at h
        cases h
        cases hd with
        | head => exact (devGet_ok_self hdg).2
        | tail _ hmem => exact ih w ds0 hrec d hmem

theorem isDeviceChangesFailed_of :
    ∀ ds, (∃ d ∈ ds, d.status.state = ChangeState.FAILED) →
      isDeviceChangesFailed ds = true := by
  intro ds
  induction ds with
  | nil => rintro ⟨d, hd, -⟩; cases hd
  | cons d rest ih =>
    rintro ⟨d0, hd0, hf⟩
    simp only [isDeviceChangesFailed]
    by_cases hd : d.status.state = ChangeState.FAILED
    · rw [if_pos hd]
    · rw [if_neg hd]
      cases hd0 with
      | head => exact absurd hf hd
      | tail _ hmem => exact ih ⟨d0, hmem, hf⟩

theorem isDeviceChangesComplete_false :
    ∀ ds, (∃ d ∈ ds, d.status.state = ChangeState.FAILED) →
      isDeviceChangesComplete ds = false := by
  intro ds
  induction ds with
  | nil => rintro ⟨d, hd, -⟩; cases hd
  | cons d rest ih =>
    rintro ⟨d0, hd0, hf⟩
    simp only [isDeviceChangesComplete]
    by_cases hd : d.status.state = ChangeState.COMPLETE
    · rw [if_pos hd]
      cases hd0 with
      | head =>
        rw [hf] at hd
        cases hd
      | tail _ hmem => exact ih ⟨d0, hmem, hf⟩
    · rw [if_neg hd]

theorem isDeviceChangeRollbacksComplete_of :
    ∀ ds, (∀ d ∈ ds, d.status.phase = Phase.ROLLBACK →
        d.status.state = ChangeState.COMPLETE) →
      isDeviceChangeRollbacksComplete ds = true := by
  intro ds
  induction ds with
  | nil => intro _; rfl
  | cons d rest ih =>
    intro hc
    simp only [isDeviceChangeRollbacksComplete]
    rw [if_neg (show ¬(d.status.phase = Phase.ROLLBACK ∧
        d.status.state ≠ ChangeState.COMPLETE) from ?_)]
    · exact ih (fun x hx => hc x (List.mem_cons_of_mem d hx))
    · rintro ⟨h1, h2⟩
      exact h2 (hc d (List.mem_cons_self d rest) h1)

theorem rollbacksRunningLoop_ok :
    ∀ ds (w : W) acc, w.faults = [] →
      (∀ d ∈ ds, devGet w d.id = Except.ok d) →
      (ds.map (fun d => d.id)).Nodup →
      ∃ b w2, ensureDeviceChangeRollbacksRunningLoop w acc ds = ((b, none), w2) ∧
        (b = true ↔ (acc = true ∨ ∃ d ∈ ds, isRollbackTarget d)) ∧
        w2.faults = [] ∧
        (∀ d ∈ ds, isRollbackTarget d →
          devGet w2 d.id = Except.ok (rolledBack d)) ∧
        (∀ x, (∀ d ∈ ds, x ≠ d.id) → devGet w2 x = devGet w x) ∧
        w2.stores.networkChanges = w.stores.networkChanges := by
  intro ds
  induction ds with
  | nil =>
    intro w acc hnil _ _
    refine ⟨acc, w, rfl, by simp, hnil, by simp, fun x _ => rfl, rfl⟩
  | cons d rest ih =>
    intro w acc hnil hpres hnodup
    rw [List.map_cons, List.nodup_cons] at hnodup
    have hdne : ∀ d2 ∈ rest, d.id ≠ d2.id := by
      intro d2 hd2 hc
      exact hnodup.1 (hc ▸ List.mem_map_of_mem (fun x => x.id) hd2)
    simp only [ensureDeviceChangeRollbacksRunningLoop]
    by_cases ht : isRollbackTarget d
    · rw [if_pos (show d.status.phase = Phase.CHANGE ∧
        d.status.state ≠ ChangeState.FAILED from ht)]
      obtain ⟨w1, hup, hupget, hupframe, hupnil, hupnet⟩ :=
        devUpdate_ok w (rolledBack d) d hnil
          (hpres d (List.mem_cons_self d rest))
      have hup2 : devUpdate w (⟨d.id, d.index, d.networkChangeID, d.deviceID,
          d.deviceVersion, d.values,
          ⟨Phase.ROLLBACK, ChangeState.RUNNING, d.status.reason⟩⟩ : DeviceChange)
          = (none, w1) := hup
      rw [hup2]
      dsimp only
      have hpres1 : ∀ d2 ∈ rest, devGet w1 d2.id = Except.ok d2 := by
        intro d2 hd2
        have hne : d2.id ≠ (rolledBack d).id := fun hc => hdne d2 hd2 hc.symm
        rw [hupframe d2.id hne]
        exact hpres d2 (List.mem_cons_of_mem d hd2)
      obtain ⟨b, w2, hloop2, hbiff, hnil2, htgt2, hfr2, hnet2⟩ :=
        ih w1 true hupnil hpres1 hnodup.2
      have hb : b = true := hbiff.mpr (Or.inl rfl)
      subst hb
      refine ⟨true, w2, hloop2, ?_, hnil2, ?_, ?_, hnet2.trans hupnet⟩
      · constructor
        · intro _
          exact Or.inr ⟨d, List.mem_cons_self d rest, ht⟩
        · intro _
          rfl
      · intro d2 hd2 ht2
        cases hd2 with
        | head =>
          rw [hfr2 d.id (fun d3 hd3 => hdne d3 hd3)]
          exact hupget
        | tail _ hmem => exact htgt2 d2 hmem ht2
      · intro x hx
        rw [hfr2 x (fun d3 hd3 => hx d3 (List.mem_cons_of_mem d hd3))]
        exact hupframe x (hx d (List.mem_cons_self d rest))
    · rw [if_neg (show ¬(d.status.phase = Phase.CHANGE ∧
        d.status.state ≠ ChangeState.FAILED) from ht)]
      obtain ⟨b, w2, hloop2, hbiff, hnil2, htgt2, hfr2, hnet2⟩ :=
        ih w acc hnil (fun d2 hd2 => hpres d2 (List.mem_cons_of_mem d hd2))
          hnodup.2
      refine ⟨b, w2, hloop2, ?_, hnil2, ?_, ?_, hnet2⟩
      · rw [hbiff]
        constructor
        · rintro (h | ⟨d2, hd2, ht2⟩)
          · exact Or.inl h
          · exact Or.inr ⟨d2, List.mem_cons_of_mem d hd2, ht2⟩
        · rintro (h | ⟨d2, hd2, ht2⟩)
          · exact Or.inl h
          · cases hd2 with
            | head => exact absurd ht2 ht
            | tail _ hmem => exact Or.inr ⟨d2, hmem, ht2⟩
      · intro d2 hd2 ht2
        cases hd2 with
        | head => exact absurd ht2 ht
        | tail _ hmem => exact htgt2 d2 hmem ht2
      · intro x hx
        exact hfr2 x (fun d3 hd3 => hx d3 (List.mem_cons_of_mem d hd3))

/-- C2 (amended): with the parent in (CHANGE, RUNNING), all children
materialized and fetched, no child still PENDING, and some child FAILED:
(a) if some child is still (CHANGE, not FAILED), Reconcile moves every such
child to (ROLLBACK, RUNNING) and returns (true, nil); (b) once no child is
in (CHANGE, not FAILED) and every ROLLBACK-phase child is COMPLETE,
Reconcile sets the parent to (PENDING, reason ERROR) and returns
(true, nil). -/
theorem claim_C2 (r : Reconciler) (w : W) (c : NetworkChange) (cid : Nat)
    (ds : List DeviceChange)
    (hnil : w.faults = [])
    (hget : netGet w cid = some c)
    (hphase : c.status.phase = Phase.CHANGE)
    (hstate : c.status.state = ChangeState.RUNNING)
    (hnoempty : ∀ ref ∈ c.changes, ref.id ≠ 0)
    (hds : getDeviceChanges c w = Except.ok ds)
    (hnodup : (ds.map (fun d => d.id)).Nodup)
    (hnopending : ∀ d ∈ ds, d.status.state ≠ ChangeState.PENDING)
    (hfailed : ∃ d ∈ ds, d.status.state = ChangeState.FAILED) :
    ((∃ d ∈ ds, isRollbackTarget d) →
      (Reconcile r w cid).1 = (true, none) ∧
      ∀ d ∈ ds, isRollbackTarget d →
        devGet (Reconcile r w cid).2.2 d.id = Except.ok (rolledBack d)) ∧
    ((∀ d ∈ ds, ¬ isRollbackTarget d) →
      (∀ d ∈ ds, d.status.phase = Phase.ROLLBACK →
        d.status.state = ChangeState.COMPLETE) →
      (Reconcile r w cid).1 = (true, none) ∧
      ∃ c2, netGet (Reconcile r w cid).2.2 cid = some c2 ∧
        c2.status.phase = Phase.CHANGE ∧
        c2.status.state = ChangeState.PENDING ∧
        c2.status.reason = Reason.ERROR) := by
  have hcid : c.id = cid := by
    have := List.find?_some hget
    simpa using this
  have hget2 : netGet w c.id = some c := by
    rw [hcid]
    exact hget
  have hedr : ensureDeviceChangesRunning ds w = ((false, none), w) := by
    unfold ensureDeviceChangesRunning
    exact ensureDeviceChangesRunningLoop_noop ds w false hnopending
  have hcompl : isDeviceChangesComplete ds = false :=
    isDeviceChangesComplete_false ds hfailed
  have hfl : isDeviceChangesFailed ds = true := isDeviceChangesFailed_of ds hfailed
  have hpres : ∀ d ∈ ds, devGet w d.id = Except.ok d :=
    getDeviceChangesLoop_present c.changes w ds hds
  constructor
  · intro hex
    obtain ⟨b, w2, hloop, hbiff, hnil2, htgt2, hfr2, hnet2⟩ :=
      rollbacksRunningLoop_ok ds w false hnil hpres hnodup
    have hb : b = true := hbiff.mpr (Or.inr hex)
    subst hb
    have herb : ensureDeviceChangeRollbacksRunning ds w = ((true, none), w2) := by
      unfold ensureDeviceChangeRollbacksRunning
      exact hloop
    have hred : Reconcile r w cid = ((true, none), r, w2) := by
      unfold Reconcile
      rw [hget]
      dsimp only
      rw [ensureDeviceChanges_noop c w hnoempty]
      dsimp only
      rw [if_neg (show ¬(false || (none : Option Err).isSome) = true from
        by decide)]
      rw [hphase]
      dsimp only
      unfold reconcileChange
      rw [hstate]
      dsimp only
      unfold reconcileRunningChange
      rw [hds]
      dsimp only
      rw [hedr]
      dsimp only
      rw [if_neg (show ¬(false || (none : Option Err).isSome) = true from
        by decide)]
      rw [if_neg (show ¬ isDeviceChangesComplete ds = true from by
        rw [hcompl]; decide)]
      rw [if_pos hfl]
      rw [herb]
      dsimp only
      rw [if_pos (show (true || (none : Option Err).isSome) = true from rfl)]
    rw [hred]
    exact ⟨rfl, fun d hd ht => htgt2 d hd ht⟩
  · intro hnone hcomp
    have herb : ensureDeviceChangeRollbacksRunning ds w = ((false, none), w) := by
      unfold ensureDeviceChangeRollbacksRunning
      exact ensureDeviceChangeRollbacksRunningLoop_noop ds w false hnone
    have hrbc : isDeviceChangeRollbacksComplete ds = true :=
      isDeviceChangeRollbacksComplete_of ds hcomp
    obtain ⟨w3, hup, hg3, hdev3, hf3⟩ :=
      netUpdate_ok w (⟨c.id, c.index, c.changes,
        ⟨c.status.phase, ChangeState.PENDING, Reason.ERROR⟩⟩ : NetworkChange)
        c hnil hget2
    have hred : Reconcile r w cid = ((true, none), r, w3) := by
      unfold Reconcile
      rw [hget]
      dsimp only
      rw [ensureDeviceChanges_noop c w hnoempty]
      dsimp only
      rw [if_neg (show ¬(false || (none : Option Err).isSome) = true from
        by decide)]
      rw [hphase]
      dsimp only
      unfold reconcileChange
      rw [hstate]
      dsimp only
      unfold reconcileRunningChange
      rw [hds]
      dsimp only
      rw [hedr]
      dsimp only
      rw [if_neg (show ¬(false || (none : Option Err).isSome) = true from
        by decide)]
      rw [if_neg (show ¬ isDeviceChangesComplete ds = true from by
        rw [hcompl]; decide)]
      rw [if_pos hfl]
      rw [herb]
      dsimp only
      rw [if_neg (show ¬(false || (none : Option Err).isSome) = true from
        by decide)]
      rw [if_pos hrbc]
      split
      · next e w4 heq =>
        have hcontra : (some e, w4) = ((none : Option Err), w3) := by
          rw [← heq]
          exact hup
        cases hcontra
      · next w4 heq =>
        have hsame : ((none : Option Err), w4) = ((none : Option Err), w3) := by
          rw [← heq]
          exact hup
        cases hsame
        rfl
    rw [hred]
    refine ⟨rfl, ⟨c.id, c.index, c.changes,
      ⟨c.status.phase, ChangeState.PENDING, Reason.ERROR⟩⟩, ?_, hphase, rfl, rfl⟩
    rw [← hcid]
    exact hg3

/-- Fixtures for the C2 counterexample: parent RUNNING with one PENDING
child and one FAILED child. -/
def c2xC : NetworkChange :=
  ⟨1, 1, [⟨1, 1, "d1", "v1", 0⟩, ⟨2, 2, "d2", "v1", 0⟩],
    ⟨Phase.CHANGE, ChangeState.RUNNING, Reason.NONE⟩⟩

def c2xD1 : DeviceChange :=
  ⟨1, 1, 1, "d1", "v1", 0, ⟨Phase.CHANGE, ChangeState.PENDING, Reason.NONE⟩⟩

def c2xD2 : DeviceChange :=
  ⟨2, 2, 1, "d2", "v1", 0, ⟨Phase.CHANGE, ChangeState.FAILED, Reason.NONE⟩⟩

def c2xW : W := ⟨⟨[c2xC], [c2xD1, c2xD2], 3⟩, []⟩

/-- C2 counterexample: the parent is (CHANGE, RUNNING), one child is FAILED
and the other child is in the CHANGE phase and not FAILED, yet Reconcile
returns (true, nil) after merely promoting the PENDING child to
(CHANGE, RUNNING): the child is not set to (ROLLBACK, RUNNING) in that
call, contradicting the claim as stated. -/
theorem claim_C2_cex :
    (netGet c2xW 1).map (fun c => c.status.phase) = some Phase.CHANGE ∧
    (netGet c2xW 1).map (fun c => c.status.state) = some ChangeState.RUNNING ∧
    devGet c2xW 2 = Except.ok c2xD2 ∧
    c2xD2.status.state = ChangeState.FAILED ∧
    devGet c2xW 1 = Except.ok c2xD1 ∧
    isRollbackTarget c2xD1 ∧
    (Reconcile ⟨0⟩ c2xW 1).1 = (true, none) ∧
    devGet (Reconcile ⟨0⟩ c2xW 1).2.2 1 =
      Except.ok ⟨1, 1, 1, "d1", "v1", 0,
        ⟨Phase.CHANGE, ChangeState.RUNNING, Reason.NONE⟩⟩ ∧
    devGet (Reconcile ⟨0⟩ c2xW 1).2.2 1 ≠ Except.ok (rolledBack c2xD1) := by
  decide

/-- Fixtures for the C2 witness: parent RUNNING with one RUNNING child and
one FAILED child (no PENDING child). -/
def c2wC : NetworkChange :=
  ⟨1, 1, [⟨1, 1, "d1", "v1", 0⟩, ⟨2, 2, "d2", "v1", 0⟩],
    ⟨Phase.CHANGE, ChangeState.RUNNING, Reason.NONE⟩⟩

def c2wD1 : DeviceChange :=
  ⟨1, 1, 1, "d1", "v1", 0, ⟨Phase.CHANGE, ChangeState.RUNNING, Reason.NONE⟩⟩

def c2wD2 : DeviceChange :=
  ⟨2, 2, 1, "d2", "v1", 0, ⟨Phase.CHANGE, ChangeState.FAILED, Reason.NONE⟩⟩

def c2wW : W := ⟨⟨[c2wC], [c2wD1, c2wD2], 3⟩, []⟩

theorem claim_C2_witness :
    (∃ d ∈ [c2wD1, c2wD2], d.status.state = ChangeState.FAILED) ∧
    (((∃ d ∈ [c2wD1, c2wD2], isRollbackTarget d) →
      (Reconcile ⟨0⟩ c2wW 1).1 = (true, none) ∧
      ∀ d ∈ [c2wD1, c2wD2], isRollbackTarget d →
        devGet (Reconcile ⟨0⟩ c2wW 1).2.2 d.id = Except.ok (rolledBack d)) ∧
    ((∀ d ∈ [c2wD1, c2wD2], ¬ isRollbackTarget d) →
      (∀ d ∈ [c2wD1, c2wD2], d.status.phase = Phase.ROLLBACK →
        d.status.state = ChangeState.COMPLETE) →
      (Reconcile ⟨0⟩ c2wW 1).1 = (true, none) ∧
      ∃ c2, netGet (Reconcile ⟨0⟩ c2wW 1).2.2 1 = some c2 ∧
        c2.status.phase = Phase.CHANGE ∧
        c2.status.state = ChangeState.PENDING ∧
        c2.status.reason = Reason.ERROR)) :=
  ⟨by decide,
    claim_C2 ⟨0⟩ c2wW c2wC 1 [c2wD1, c2wD2] (by decide) (by decide) (by decide)
      (by decide) (by decide) (by decide) (by decide) (by decide) (by decide)⟩

/-! ## Rollback-phase helpers and fault injection (C6) -/

theorem takeFault_cons {w : W} {f : Bool} {rest : List Bool}
    (h : w.faults = f :: rest) :
    takeFault w = (f, { w with faults := rest }) := by
  cases w with
  | mk s fl =>
    dsimp only at h
    subst h
    rfl

theorem netUpdate_fault {w : W} {rest : List Bool}
    (h : w.faults = true :: rest) (c2 : NetworkChange) :
    netUpdate w c2 = (some Err.storeErr, { w with faults := rest }) := by
  rw [netUpdate_eq, takeFault_cons h]
  rfl

theorem devUpdate_fault {w : W} {rest : List Bool}
    (h : w.faults = true :: rest) (dc : DeviceChange) :
    devUpdate w dc = (some Err.storeErr, { w with faults := rest }) := by
  rw [devUpdate_eq, takeFault_cons h]
  rfl

theorem devCreate_fault {w : W} {rest : List Bool}
    (h : w.faults = true :: rest) (dc : DeviceChange) :
    devCreate w dc = (some Err.storeErr, dc, { w with faults := rest }) := by
  rw [devCreate_eq, takeFault_cons h]
  rfl

theorem ensureDeviceRollbacksLoop_noop :
    ∀ refs (w : W) acc,
      (∀ ref ∈ refs, ∃ d, devGet w ref.id = Except.ok d ∧
        d.status.phase = Phase.ROLLBACK) →
      ensureDeviceRollbacksLoop w acc refs = ((acc, none), w) := by
  intro refs
  induction refs with
  | nil => intro w acc _; rfl
  | cons ref rest ih =>
    intro w acc hk
    obtain ⟨d, hd, hph⟩ := hk ref (List.mem_cons_self ref rest)
    simp only [ensureDeviceRollbacksLoop]
    rw [hd]
    dsimp only
    rw [if_neg (show ¬ d.status.phase ≠ Phase.ROLLBACK from by
      rw [hph]; exact fun hc => hc rfl)]
    exact ih w acc (fun x hx => hk x (List.mem_cons_of_mem ref hx))

theorem ensureDeviceRollbacksRunningLoop_noop :
    ∀ refs (w : W) acc,
      (∀ ref ∈ refs, ∃ d, devGet w ref.id = Except.ok d ∧
        d.status.state ≠ ChangeState.PENDING) →
      ensureDeviceRollbacksRunningLoop w acc refs = ((acc, none), w) := by
  intro refs
  induction refs with
  | nil => intro w acc _; rfl
  | cons ref rest ih =>
    intro w acc hk
    obtain ⟨d, hd, hst⟩ := hk ref (List.mem_cons_self ref rest)
    simp only [ensureDeviceRollbacksRunningLoop]
    rw [hd]
    dsimp only
    rw [if_neg hst]
    exact ih w acc (fun x hx => hk x (List.mem_cons_of_mem ref hx))

theorem isRollbackCompleteLoop_all :
    ∀ refs (w : W),
      (∀ ref ∈ refs, ∃ d, devGet w ref.id = Except.ok d ∧
        d.status.state = ChangeState.COMPLETE) →
      isRollbackCompleteLoop w refs = Except.ok refs.length := by
  intro refs
  induction refs with
  | nil => intro w _; rfl
  | cons ref rest ih =>
    intro w hk
    obtain ⟨d, hd, hst⟩ := hk ref (List.mem_cons_self ref rest)
    simp only [isRollbackCompleteLoop]
    rw [hd]
    dsimp only
    rw [ih w (fun x hx => hk x (List.mem_cons_of_mem ref hx))]
    dsimp only
    rw [if_pos hst, List.length_cons]

theorem isRollbackComplete_all (c : NetworkChange) (w : W)
    (hk : ∀ ref ∈ c.changes, ∃ d, devGet w ref.id = Except.ok d ∧
      d.status.state = ChangeState.COMPLETE) :
    isRollbackComplete c w = (true, none) := by
  unfold isRollbackComplete
  rw [isRollbackCompleteLoop_all c.changes w hk]
  dsimp only
  rw [show (c.changes.length == c.changes.length) = true from by simp]

/-- C6 (amended): in the ROLLBACK phase with the parent RUNNING and every
child rollback COMPLETE, when persisting the parent's transition to
COMPLETE fails, Reconcile returns (false, nil) - the store error is
swallowed (the error component is nil) - and no store change is
committed. -/
theorem claim_C6 (r : Reconciler) (w : W) (c : NetworkChange) (cid : Nat)
    (rest : List Bool)
    (hfault : w.faults = true :: rest)
    (hget : netGet w cid = some c)
    (hphase : c.status.phase = Phase.ROLLBACK)
    (hstate : c.status.state = ChangeState.RUNNING)
    (hnoempty : ∀ ref ∈ c.changes, ref.id ≠ 0)
    (hkids : ∀ ref ∈ c.changes, ∃ d, devGet w ref.id = Except.ok d ∧
      d.status.phase = Phase.ROLLBACK ∧ d.status.state = ChangeState.COMPLETE) :
    (Reconcile r w cid).1 = (false, none) ∧
    (Reconcile r w cid).2.2.stores = w.stores := by
  have hred : Reconcile r w cid = ((false, none), r, { w with faults := rest }) := by
    unfold Reconcile
    rw [hget]
    dsimp only
    rw [ensureDeviceChanges_noop c w hnoempty]
    dsimp only
    rw [if_neg (show ¬(false || (none : Option Err).isSome) = true from
      by decide)]
    rw [hphase]
    dsimp only
    unfold reconcileRollback
    rw [show ensureDeviceRollbacks c w = ((false, none), w) from by
      unfold ensureDeviceRollbacks
      exact ensureDeviceRollbacksLoop_noop c.changes w false
        (fun ref hr => by
          obtain ⟨d, hd, hph, _⟩ := hkids ref hr
          exact ⟨d, hd, hph⟩)]
    dsimp only
    rw [if_neg (show ¬(false || (none : Option Err).isSome) = true from
      by decide)]
    rw [hstate]
    dsimp only
    unfold reconcileRunningRollback
    rw [show ensureDeviceRollbacksRunning c w = ((false, none), w) from by
      unfold ensureDeviceRollbacksRunning
      exact ensureDeviceRollbacksRunningLoop_noop c.changes w false
        (fun ref hr => by
          obtain ⟨d, hd, _, hst⟩ := hkids ref hr
          exact ⟨d, hd, by rw [hst]; decide⟩)]
    dsimp only
    rw [if_neg (show ¬(false || (none : Option Err).isSome) = true from
      by decide)]
    rw [isRollbackComplete_all c w
      (fun ref hr => by
        obtain ⟨d, hd, _, hst⟩ := hkids ref hr
        exact ⟨d, hd, hst⟩)]
    dsimp only
    rw [if_neg (show ¬(!true) = true from by decide)]
    rw [netUpdate_fault hfault]
  rw [hred]
  exact ⟨rfl, rfl⟩

/-- Fixtures for the C6 counterexample and witness: a rollback with one
COMPLETE child and a store whose next Update fails. -/
def c6xC : NetworkChange :=
  ⟨1, 1, [⟨1, 1, "d1", "v1", 0⟩],
    ⟨Phase.ROLLBACK, ChangeState.RUNNING, Reason.NONE⟩⟩

def c6xD : DeviceChange :=
  ⟨1, 1, 1, "d1", "v1", 0, ⟨Phase.ROLLBACK, ChangeState.COMPLETE, Reason.NONE⟩⟩

def c6xW : W := ⟨⟨[c6xC], [c6xD], 2⟩, [true]⟩

/-- C6 counterexample: at this store state the failed final Update makes
Reconcile return (false, nil), not (true, nil) as the claim states. -/
theorem claim_C6_cex :
    (Reconcile ⟨0⟩ c6xW 1).1 = (false, none) ∧
    (Reconcile ⟨0⟩ c6xW 1).1 ≠ (true, none) := by
  decide

theorem claim_C6_witness :
    c6xW.faults = true :: [] ∧
    ((Reconcile ⟨0⟩ c6xW 1).1 = (false, none) ∧
      (Reconcile ⟨0⟩ c6xW 1).2.2.stores = c6xW.stores) :=
  ⟨by decide,
    claim_C6 ⟨0⟩ c6xW c6xC 1 [] (by decide) (by decide) (by decide) (by decide)
      (by decide) (fun ref hr => by
        refine ⟨c6xD, ?_, by decide, by decide⟩
        have : ref = (⟨1, 1, "d1", "v1", 0⟩ : DeviceChangeRef) := by
          cases hr with
          | head => rfl
          | tail _ h2 => cases h2
        rw [this]
        decide)⟩

/-! ## First-fault lemmas: a failing first write commits nothing (C8) -/

theorem ensureDeviceChangesLoop_ff (configID : Nat) :
    ∀ refs (w : W) (rest : List Bool), w.faults = true :: rest →
      (ensureDeviceChangesLoop configID w refs).2.2.2.stores = w.stores ∧
      ((ensureDeviceChangesLoop configID w refs).1 = none →
        (ensureDeviceChangesLoop configID w refs).2.2.2 = w ∧
        (ensureDeviceChangesLoop configID w refs).2.1 = false) := by
  intro refs
  induction refs with
  | nil => intro w rest _; exact ⟨rfl, fun _ => ⟨rfl, rfl⟩⟩
  | cons ref rest2 ih =>
    intro w rest hfault
    simp only [ensureDeviceChangesLoop]
    by_cases href : (ref.id == 0)
    · rw [if_pos href, devCreate_fault hfault]
      dsimp only
      exact ⟨rfl, fun hc => by cases hc⟩
    · rw [if_neg href]
      obtain ⟨h1, h2⟩ := ih w rest hfault
      refine ⟨h1, fun he => ?_⟩
      obtain ⟨ha, hb⟩ := h2 he
      exact ⟨ha, hb⟩

theorem ensureDeviceChanges_ff (c : NetworkChange) (w : W) (rest : List Bool)
    (hfault : w.faults = true :: rest) :
    (ensureDeviceChanges c w).2.2.stores = w.stores ∧
    (ensureDeviceChanges c w).1.1 = false ∧
    ((ensureDeviceChanges c w).1.2 = none → (ensureDeviceChanges c w).2.2 = w) := by
  unfold ensureDeviceChanges
  obtain ⟨h1, h2⟩ := ensureDeviceChangesLoop_ff c.id c.changes w rest hfault
  rcases hloop : ensureDeviceChangesLoop c.id w c.changes with ⟨eo, upd, refs, w1⟩
  rw [hloop] at h1 h2
  dsimp only at h1 h2
  cases eo with
  | some e => exact ⟨h1, rfl, fun hc => by cases hc⟩
  | none =>
    obtain ⟨hw1, hupd⟩ := h2 rfl
    subst hupd
    dsimp only
    rw [if_neg (show ¬false = true from by decide)]
    exact ⟨h1, rfl, fun _ => hw1⟩

theorem ensureDeviceChangesRunningLoop_ff :
    ∀ ds (w : W) (acc : Bool) (rest : List Bool), w.faults = true :: rest →
      (ensureDeviceChangesRunningLoop w acc ds).2.stores = w.stores ∧
      ((ensureDeviceChangesRunningLoop w acc ds).1.2 = none →
        (ensureDeviceChangesRunningLoop w acc ds).2 = w ∧
        (ensureDeviceChangesRunningLoop w acc ds).1.1 = acc) := by
  intro ds
  induction ds with
  | nil => intro w acc rest _; exact ⟨rfl, fun _ => ⟨rfl, rfl⟩⟩
  | cons d rest2 ih =>
    intro w acc rest hfault
    simp only [ensureDeviceChangesRunningLoop]
    by_cases hd : d.status.state = ChangeState.PENDING
    · rw [if_pos hd, devUpdate_fault hfault]
      dsimp only
      exact ⟨rfl, fun hc => by cases hc⟩
    · rw [if_neg hd]
      exact ih w acc rest hfault

theorem ensureDeviceChangeRollbacksRunningLoop_ff :
    ∀ ds (w : W) (acc : Bool) (rest : List Bool), w.faults = true :: rest →
      (ensureDeviceChangeRollbacksRunningLoop w acc ds).2.stores = w.stores ∧
      ((ensureDeviceChangeRollbacksRunningLoop w acc ds).1.2 = none →
        (ensureDeviceChangeRollbacksRunningLoop w acc ds).2 = w ∧
        (ensureDeviceChangeRollbacksRunningLoop w acc ds).1.1 = acc) := by
  intro ds
  induction ds with
  | nil => intro w acc rest _; exact ⟨rfl, fun _ => ⟨rfl, rfl⟩⟩
  | cons d rest2 ih =>
    intro w acc rest hfault
    simp only [ensureDeviceChangeRollbacksRunningLoop]
    by_cases hd : d.status.phase = Phase.CHANGE ∧ d.status.state ≠ ChangeState.FAILED
    · rw [if_pos hd, devUpdate_fault hfault]
      dsimp only
      exact ⟨rfl, fun hc => by cases hc⟩
    · rw [if_neg hd]
      exact ih w acc rest hfault

theorem ensureDeviceRollbacksLoop_ff :
    ∀ refs (w : W) (acc : Bool) (rest : List Bool), w.faults = true :: rest →
      (ensureDeviceRollbacksLoop w acc refs).2.stores = w.stores ∧
      ((ensureDeviceRollbacksLoop w acc refs).1.2 = none →
        (ensureDeviceRollbacksLoop w acc refs).2 = w ∧
        (ensureDeviceRollbacksLoop w acc refs).1.1 = acc) := by
  intro refs
  induction refs with
  | nil => intro w acc rest _; exact ⟨rfl, fun _ => ⟨rfl, rfl⟩⟩
  | cons ref rest2 ih =>
    intro w acc rest hfault
    simp only [ensureDeviceRollbacksLoop]
    cases hdg : devGet w ref.id with
    | error e => exact ⟨rfl, fun hc => by cases hc⟩
    | ok dc =>
      dsimp only
      by_cases hd : dc.status.phase ≠ Phase.ROLLBACK
      · rw [if_pos hd, devUpdate_fault hfault]
        dsimp only
        exact ⟨rfl, fun hc => by cases hc⟩
      · rw [if_neg hd]
        exact ih w acc rest hfault

theorem ensureDeviceRollbacksRunningLoop_ff :
    ∀ refs (w : W) (acc : Bool) (rest : List Bool), w.faults = true :: rest →
      (ensureDeviceRollbacksRunningLoop w acc refs).2.stores = w.stores ∧
      ((ensureDeviceRollbacksRunningLoop w acc refs).1.2 = none →
        (ensureDeviceRollbacksRunningLoop w acc refs).2 = w ∧
        (ensureDeviceRollbacksRunningLoop w acc refs).1.1 = acc) := by
  intro refs
  induction refs with
  | nil => intro w acc rest _; exact ⟨rfl, fun _ => ⟨rfl, rfl⟩⟩
  | cons ref rest2 ih =>
    intro w acc rest hfault
    simp only [ensureDeviceRollbacksRunningLoop]
    cases hdg : devGet w ref.id with
    | error e => exact ⟨rfl, fun hc => by cases hc⟩
    | ok dc =>
      dsimp only
      by_cases hd : dc.status.state = ChangeState.PENDING
      · rw [if_pos hd, devUpdate_fault hfault]
        dsimp only
        exact ⟨rfl, fun hc => by cases hc⟩
      · rw [if_neg hd]
        exact ih w acc rest hfault

theorem reconcilePendingChange_ff (c : NetworkChange) (r : Reconciler) (w : W)
    (rest : List Bool) (hfault : w.faults = true :: rest) :
    (reconcilePendingChange c r w).2.2.stores = w.stores := by
  unfold reconcilePendingChange
  rcases hca : canApplyChange c r w with ⟨b, r1⟩
  cases b with
  | false => rfl
  | true =>
    dsimp only
    rw [if_neg (show ¬(!true) = true from by decide)]
    rw [netUpdate_fault hfault]

theorem reconcileRunningChange_ff (c : NetworkChange) (w : W)
    (rest : List Bool) (hfault : w.faults = true :: rest) :
    (reconcileRunningChange c w).2.stores = w.stores := by
  unfold reconcileRunningChange
  cases hgd : getDeviceChanges c w with
  | error e => rfl
  | ok ds =>
    dsimp only
    obtain ⟨h1, h2⟩ := ensureDeviceChangesRunningLoop_ff ds w false rest hfault
    rcases her : ensureDeviceChangesRunning ds w with ⟨⟨succ, e⟩, w1⟩
    unfold ensureDeviceChangesRunning at her
    rw [her] at h1 h2
    dsimp only at h1 h2
    dsimp only
    by_cases hcond : (succ || e.isSome) = true
    · rw [if_pos hcond]
      exact h1
    · rw [if_neg hcond]
      have he : e = none := by
        cases e
        · rfl
        · simp at hcond
      obtain ⟨hw1, hsucc⟩ := h2 he
      rw [hw1]
      by_cases hcomp : isDeviceChangesComplete ds = true
      · rw [if_pos hcomp]
        rw [netUpdate_fault hfault]
      · rw [if_neg hcomp]
        by_cases hfail : isDeviceChangesFailed ds = true
        · rw [if_pos hfail]
          obtain ⟨h3, h4⟩ :=
            ensureDeviceChangeRollbacksRunningLoop_ff ds w false rest hfault
          rcases hrb : ensureDeviceChangeRollbacksRunning ds w with ⟨⟨s2, e2⟩, w2⟩
          unfold ensureDeviceChangeRollbacksRunning at hrb
          rw [hrb] at h3 h4
          dsimp only at h3 h4
          dsimp only
          by_cases hcond2 : (s2 || e2.isSome) = true
          · rw [if_pos hcond2]
            exact h3
          · rw [if_neg hcond2]
            have he2 : e2 = none := by
              cases e2
              · rfl
              · simp at hcond2
            obtain ⟨hw2, _⟩ := h4 he2
            rw [hw2]
            by_cases hrc : isDeviceChangeRollbacksComplete ds = true
            · rw [if_pos hrc]
              rw [netUpdate_fault hfault]
            · rw [if_neg hrc]
        · rw [if_neg hfail]

theorem reconcilePendingRollback_ff (c : NetworkChange) (w : W)
    (rest : List Bool) (hfault : w.faults = true :: rest) :
    (reconcilePendingRollback c w).2.stores = w.stores := by
  unfold reconcilePendingRollback
  rcases hcr : canApplyRollback c w with ⟨b, eo⟩
  cases eo with
  | some e => rfl
  | none =>
    cases b with
    | false => rfl
    | true =>
      dsimp only
      rw [if_neg (show ¬(!true) = true from by decide)]
      rw [netUpdate_fault hfault]

theorem reconcileRunningRollback_ff (c : NetworkChange) (w : W)
    (rest : List Bool) (hfault : w.faults = true :: rest) :
    (reconcileRunningRollback c w).2.stores = w.stores := by
  unfold reconcileRunningRollback
  obtain ⟨h1, h2⟩ := ensureDeviceRollbacksRunningLoop_ff c.changes w false rest hfault
  rcases hdr : ensureDeviceRollbacksRunning c w with ⟨⟨s, e⟩, w1⟩
  unfold ensureDeviceRollbacksRunning at hdr
  rw [hdr] at h1 h2
  dsimp only at h1 h2
  dsimp only
  by_cases hcond : (s || e.isSome) = true
  · rw [if_pos hcond]
    exact h1
  · rw [if_neg hcond]
    have he : e = none := by
      cases e
      · rfl
      · simp at hcond
    obtain ⟨hw1, _⟩ := h2 he
    rw [hw1]
    rcases hirc : isRollbackComplete c w with ⟨comp, eo⟩
    cases eo with
    | some e2 => rfl
    | none =>
      cases comp with
      | false => rfl
      | true =>
        dsimp only
        rw [if_neg (show ¬(!true) = true from by decide)]
        rw [netUpdate_fault hfault]

theorem reconcileRollback_ff (c : NetworkChange) (w : W)
    (rest : List Bool) (hfault : w.faults = true :: rest) :
    (reconcileRollback c w).2.stores = w.stores := by
  unfold reconcileRollback
  obtain ⟨h1, h2⟩ := ensureDeviceRollbacksLoop_ff c.changes w false rest hfault
  rcases herb : ensureDeviceRollbacks c w with ⟨⟨upd, e⟩, w1⟩
  unfold ensureDeviceRollbacks at herb
  rw [herb] at h1 h2
  dsimp only at h1 h2
  dsimp only
  by_cases hcond : (upd || e.isSome) = true
  · rw [if_pos hcond]
    exact h1
  · rw [if_neg hcond]
    have he : e = none := by
      cases e
      · rfl
      · simp at hcond
    obtain ⟨hw1, _⟩ := h2 he
    rw [hw1]
    cases c.status.state with
    | PENDING => exact reconcilePendingRollback_ff c w rest hfault
    | RUNNING => exact reconcileRunningRollback_ff c w rest hfault
    | COMPLETE => rfl
    | FAILED => rfl

/-- C8 (amended): when the first store write attempted by the call fails
with a transient fault, no state change is committed: the stores are left
exactly as before the call.  (Writes that succeed earlier in the same call
remain committed, as claim C8's counterexample shows.) -/
theorem claim_C8 (r : Reconciler) (w : W) (id : Nat) (rest : List Bool)
    (hfault : w.faults = true :: rest) :
    (Reconcile r w id).2.2.stores = w.stores := by
  unfold Reconcile
  cases hget : netGet w id with
  | none => rfl
  | some c =>
    dsimp only
    obtain ⟨h1, h2, h3⟩ := ensureDeviceChanges_ff c w rest hfault
    rcases hed : ensureDeviceChanges c w with ⟨⟨succ, e⟩, c2, w1⟩
    rw [hed] at h1 h2 h3
    dsimp only at h1 h2 h3
    subst h2
    by_cases hcond : (false || e.isSome) = true
    · rw [if_pos hcond]
      exact h1
    · rw [if_neg hcond]
      have he : e = none := by
        cases e
        · rfl
        · simp at hcond
      obtain hw1 := h3 he
      rw [hw1]
      cases c2.status.phase with
      | CHANGE =>
        dsimp only
        unfold reconcileChange
        cases c2.status.state with
        | PENDING => exact reconcilePendingChange_ff c2 r w rest hfault
        | RUNNING =>
          dsimp only
          exact reconcileRunningChange_ff c2 w rest hfault
        | COMPLETE => rfl
        | FAILED => rfl
      | ROLLBACK =>
        dsimp only
        exact reconcileRollback_ff c2 w rest hfault

/-- Fixtures for the C8 counterexample and witness: a change with two
children still to create, and a fault schedule failing the second
(respectively first) store write. -/
def c8xC : NetworkChange :=
  ⟨1, 1, [⟨0, 0, "d1", "v1", 0⟩, ⟨0, 0, "d2", "v1", 0⟩],
    ⟨Phase.CHANGE, ChangeState.PENDING, Reason.NONE⟩⟩

def c8xW : W := ⟨⟨[c8xC], [], 1⟩, [false, true]⟩

def c8wW : W := ⟨⟨[c8xC], [], 1⟩, [true]⟩

/-- C8 counterexample: the first Create succeeds and is committed, the
second Create fails; Reconcile returns a transient store error, yet the
device-change store differs from its state before the call. -/
theorem claim_C8_cex :
    (Reconcile ⟨0⟩ c8xW 1).1.2 = some Err.storeErr ∧
    (Reconcile ⟨0⟩ c8xW 1).2.2.stores ≠ c8xW.stores ∧
    (Reconcile ⟨0⟩ c8xW 1).2.2.stores.deviceChanges =
      [⟨1, 1, 1, "d1", "v1", 0,
        ⟨Phase.CHANGE, ChangeState.PENDING, Reason.NONE⟩⟩] := by
  decide

theorem claim_C8_witness :
    c8wW.faults = true :: [] ∧
    (Reconcile ⟨0⟩ c8wW 1).2.2.stores = c8wW.stores :=
  ⟨by decide, claim_C8 ⟨0⟩ c8wW 1 [] (by decide)⟩

/-! ## Missing-child lemmas (C10) -/

/-- A device-change id absent from the store. -/
def devAbsent (w : W) (x : Nat) : Prop :=
  w.stores.deviceChanges.find? (fun d => d.id == x) = none

instance (w : W) (x : Nat) : Decidable (devAbsent w x) := by
  unfold devAbsent; infer_instance

theorem devGet_absent {w : W} {x : Nat} (h : devAbsent w x) :
    devGet w x = Except.error (Err.notFound x) := by
  unfold devGet
  unfold devAbsent at h
  rw [h]

theorem devUpdate_map_id {w : W} {dc : DeviceChange} {w1 : W}
    (h : devUpdate w dc = (none, w1)) :
    w1.stores.deviceChanges.map (fun d => d.id)
      = w.stores.deviceChanges.map (fun d => d.id) := by
  rw [devUpdate_eq] at h
  by_cases hf : (takeFault w).1
  · rw [if_pos hf] at h
    cases h
  · rw [if_neg hf] at h
    unfold devUpdateCommit at h
    cases hrep : replaceDev dc (takeFault w).2.stores.deviceChanges with
    | none =>
      rw [hrep] at h
      cases h
    | some l =>
      rw [hrep] at h
      cases h
      dsimp only
      rw [replaceDev_map_id dc _ l hrep, takeFault_stores]

theorem devAbsent_of_update {w : W} {dc : DeviceChange} {w1 : W} {x : Nat}
    (h : devUpdate w dc = (none, w1)) (ha : devAbsent w x) :
    devAbsent w1 x := by
  unfold devAbsent at ha ⊢
  rw [List.find?_eq_none] at ha ⊢
  intro y hy
  have hmap := devUpdate_map_id h
  have : y.id ∈ w.stores.deviceChanges.map (fun d => d.id) := by
    rw [← hmap]
    exact List.mem_map_of_mem (fun d => d.id) hy
  obtain ⟨z, hz, hzy⟩ := List.mem_map.mp this
  have := ha z hz
  simp only [beq_eq_false_iff_ne] at this ⊢
  rw [← hzy]
  simpa using this

theorem getDeviceChangesLoop_err :
    ∀ refs (w : W), (∃ ref ∈ refs, devAbsent w ref.id) →
      ∃ e, getDeviceChangesLoop w refs = Except.error e := by
  intro refs
  induction refs with
  | nil => rintro w ⟨ref, hm, -⟩; cases hm
  | cons ref rest ih =>
    rintro w ⟨ref0, hm, habs⟩
    simp only [getDeviceChangesLoop]
    cases hdg : devGet w ref.id with
    | error e => exact ⟨e, rfl⟩
    | ok d =>
      dsimp only
      have hm2 : ref0 ∈ rest := by
        cases hm with
        | head =>
          rw [devGet_absent habs] at hdg
          cases hdg
        | tail _ h2 => exact h2
      obtain ⟨e, herr⟩ := ih w ⟨ref0, hm2, habs⟩
      rw [herr]
      exact ⟨e, rfl⟩

theorem ensureDeviceRollbacksLoop_err :
    ∀ refs (w : W) acc, (∃ ref ∈ refs, devAbsent w ref.id) →
      (ensureDeviceRollbacksLoop w acc refs).1.2.isSome = true := by
  intro refs
  induction refs with
  | nil => rintro w acc ⟨ref, hm, -⟩; cases hm
  | cons ref rest ih =>
    rintro w acc ⟨ref0, hm, habs⟩
    simp only [ensureDeviceRollbacksLoop]
    cases hdg : devGet w ref.id with
    | error e => rfl
    | ok dc =>
      dsimp only
      have hm2 : ref0 ∈ rest := by
        cases hm with
        | head =>
          rw [devGet_absent habs] at hdg
          cases hdg
        | tail _ h2 => exact h2
      by_cases hph : dc.status.phase ≠ Phase.ROLLBACK
      · rw [if_pos hph]
        rcases hup : devUpdate w
            (⟨dc.id, dc.index, dc.networkChangeID, dc.deviceID,
              dc.deviceVersion, dc.values,
              ⟨Phase.ROLLBACK, ChangeState.PENDING, dc.status.reason⟩⟩
              : DeviceChange) with ⟨eo, w1⟩
        cases eo with
        | some e => rfl
        | none =>
          dsimp only
          exact ih w1 true ⟨ref0, hm2, devAbsent_of_update hup habs⟩
      · rw [if_neg hph]
        exact ih w acc ⟨ref0, hm2, habs⟩

/-- C10 (amended): when a ref carries a non-empty id whose DeviceChange is
absent and the parent is in a phase/state in which Reconcile loads its
children (CHANGE with state RUNNING, or ROLLBACK), the call surfaces a
non-nil error, so the id is requeued. -/
theorem claim_C10 (r : Reconciler) (w : W) (c : NetworkChange) (cid : Nat)
    (hget : netGet w cid = some c)
    (hnoempty : ∀ ref ∈ c.changes, ref.id ≠ 0)
    (habs : ∃ ref ∈ c.changes, devAbsent w ref.id)
    (hps : c.status.phase = Phase.ROLLBACK ∨
      (c.status.phase = Phase.CHANGE ∧ c.status.state = ChangeState.RUNNING)) :
    (Reconcile r w cid).1.2.isSome = true := by
  unfold Reconcile
  rw [hget]
  dsimp only
  rw [ensureDeviceChanges_noop c w hnoempty]
  dsimp only
  rw [if_neg (show ¬(false || (none : Option Err).isSome) = true from by decide)]
  rcases hps with hrb | ⟨hph, hst⟩
  · rw [hrb]
    dsimp only
    unfold reconcileRollback
    have herr := ensureDeviceRollbacksLoop_err c.changes w false habs
    rcases herb : ensureDeviceRollbacksLoop w false c.changes with ⟨⟨upd, e⟩, w1⟩
    rw [herb] at herr
    dsimp only at herr
    rw [show ensureDeviceRollbacks c w = ((upd, e), w1) from by
      unfold ensureDeviceRollbacks; exact herb]
    dsimp only
    rw [if_pos (show (upd || e.isSome) = true from by rw [herr]; simp)]
    exact herr
  · rw [hph]
    dsimp only
    unfold reconcileChange
    rw [hst]
    dsimp only
    unfold reconcileRunningChange
    obtain ⟨e, herr⟩ := getDeviceChangesLoop_err c.changes w habs
    rw [show getDeviceChanges c w = Except.error e from by
      unfold getDeviceChanges; exact herr]
    rfl

/-- Fixtures for the C10 counterexample: a PENDING change whose single ref
points at an absent child; admission succeeds without touching children. -/
def c10xC : NetworkChange :=
  ⟨1, 1, [⟨7, 7, "d1", "v1", 0⟩],
    ⟨Phase.CHANGE, ChangeState.PENDING, Reason.NONE⟩⟩

def c10xW : W := ⟨⟨[c10xC], [], 1⟩, []⟩

/-- C10 counterexample: the ref's id 7 is non-empty and absent from the
device-change store, yet Reconcile returns (true, nil) - no error and no
requeue - because the PENDING-admission path never dereferences children. -/
theorem claim_C10_cex :
    devAbsent c10xW 7 ∧
    (Reconcile ⟨0⟩ c10xW 1).1 = (true, none) ∧
    (Reconcile ⟨0⟩ c10xW 1).1.2.isSome = false := by
  decide

/-- Fixture for the C10 witness: same store but with the parent in the
ROLLBACK phase. -/
def c10wC : NetworkChange :=
  ⟨1, 1, [⟨7, 7, "d1", "v1", 0⟩],
    ⟨Phase.ROLLBACK, ChangeState.PENDING, Reason.NONE⟩⟩

def c10wW : W := ⟨⟨[c10wC], [], 1⟩, []⟩

theorem claim_C10_witness :
    (∃ ref ∈ c10wC.changes, devAbsent c10wW ref.id) ∧
    (Reconcile ⟨0⟩ c10wW 1).1.2.isSome = true :=
  ⟨by decide,
    claim_C10 ⟨0⟩ c10wW c10wC 1 (by decide) (by decide) (by decide)
      (Or.inl (by decide))⟩

/-! ## Fault-schedule preservation on the fault-free path (C4) -/

theorem netUpdate_faults_nil {w : W} {c2 : NetworkChange} {eo : Option Err}
    {w1 : W} (h : netUpdate w c2 = (eo, w1)) (hnil : w.faults = []) :
    w1.faults = [] := by
  rw [netUpdate_eq, takeFault_nil hnil] at h
  have h2 : netUpdateCommit w c2 = (eo, w1) := h
  unfold netUpdateCommit at h2
  cases hrep : replaceNet c2 w.stores.networkChanges with
  | none =>
    rw [hrep] at h2
    cases h2
    exact hnil
  | some l =>
    rw [hrep] at h2
    cases h2
    exact hnil

theorem devUpdate_faults_nil {w : W} {dc : DeviceChange} {eo : Option Err}
    {w1 : W} (h : devUpdate w dc = (eo, w1)) (hnil : w.faults = []) :
    w1.faults = [] := by
  rw [devUpdate_eq, takeFault_nil hnil] at h
  have h2 : devUpdateCommit w dc = (eo, w1) := h
  unfold devUpdateCommit at h2
  cases hrep : replaceDev dc w.stores.deviceChanges with
  | none =>
    rw [hrep] at h2
    cases h2
    exact hnil
  | some l =>
    rw [hrep] at h2
    cases h2
    exact hnil

theorem devCreate_faults_nil {w : W} {dc : DeviceChange} {eo : Option Err}
    {dc2 : DeviceChange} {w1 : W} (h : devCreate w dc = (eo, dc2, w1))
    (hnil : w.faults = []) : w1.faults = [] := by
  rw [devCreate_eq, takeFault_nil hnil] at h
  have h2 : devCreateCommit w dc = (eo, dc2, w1) := h
  unfold devCreateCommit at h2
  cases h2
  exact hnil

theorem ensureDeviceChangesLoop_faults_nil (configID : Nat) :
    ∀ refs (w : W), w.faults = [] →
      (ensureDeviceChangesLoop configID w refs).2.2.2.faults = [] := by
  intro refs
  induction refs with
  | nil => intro w hnil; exact hnil
  | cons ref rest ih =>
    intro w hnil
    simp only [ensureDeviceChangesLoop]
    by_cases href : (ref.id == 0)
    · rw [if_pos href]
      split
      · next e fst w1 hdc => exact devCreate_faults_nil hdc hnil
      · next dc2 w1 hdc =>
        dsimp only
        exact ih w1 (devCreate_faults_nil hdc hnil)
    · rw [if_neg href]
      exact ih w hnil

theorem ensureDeviceChanges_faults_nil (c : NetworkChange) (w : W)
    (hnil : w.faults = []) : (ensureDeviceChanges c w).2.2.faults = [] := by
  unfold ensureDeviceChanges
  have hl := ensureDeviceChangesLoop_faults_nil c.id c.changes w hnil
  rcases hloop : ensureDeviceChangesLoop c.id w c.changes with ⟨eo, upd, refs, w1⟩
  rw [hloop] at hl
  dsimp only at hl
  cases eo with
  | some e => exact hl
  | none =>
    cases upd with
    | true =>
      dsimp only
      rw [if_pos rfl]
      split
      · next e2 w2 hup => exact netUpdate_faults_nil hup hl
      · next w2 hup => exact netUpdate_faults_nil hup hl
    | false =>
      dsimp only
      rw [if_neg (show ¬false = true from by decide)]
      exact hl

theorem ensureDeviceChangesRunningLoop_faults_nil :
    ∀ ds (w : W) acc, w.faults = [] →
      (ensureDeviceChangesRunningLoop w acc ds).2.faults = [] := by
  intro ds
  induction ds with
  | nil => intro w acc hnil; exact hnil
  | cons d rest ih =>
    intro w acc hnil
    simp only [ensureDeviceChangesRunningLoop]
    by_cases hd : d.status.state = ChangeState.PENDING
    · rw [if_pos hd]
      split
      · next e w1 hup => exact devUpdate_faults_nil hup hnil
      · next w1 hup => exact ih w1 true (devUpdate_faults_nil hup hnil)
    · rw [if_neg hd]
      exact ih w acc hnil

theorem ensureDeviceChangeRollbacksRunningLoop_faults_nil :
    ∀ ds (w : W) acc, w.faults = [] →
      (ensureDeviceChangeRollbacksRunningLoop w acc ds).2.faults = [] := by
  intro ds
  induction ds with
  | nil => intro w acc hnil; exact hnil
  | cons d rest ih =>
    intro w acc hnil
    simp only [ensureDeviceChangeRollbacksRunningLoop]
    split
    · split
      · next e w1 hup => exact devUpdate_faults_nil hup hnil
      · next w1 hup => exact ih w1 true (devUpdate_faults_nil hup hnil)
    · exact ih w acc hnil

theorem ensureDeviceRollbacksLoop_faults_nil :
    ∀ refs (w : W) acc, w.faults = [] →
      (ensureDeviceRollbacksLoop w acc refs).2.faults = [] := by
  intro refs
  induction refs with
  | nil => intro w acc hnil; exact hnil
  | cons ref rest ih =>
    intro w acc hnil
    simp only [ensureDeviceRollbacksLoop]
    cases hdg : devGet w ref.id with
    | error e => exact hnil
    | ok dc =>
      dsimp only
      split
      · split
        · next e w1 hup => exact devUpdate_faults_nil hup hnil
        · next w1 hup => exact ih w1 true (devUpdate_faults_nil hup hnil)
      · exact ih w acc hnil

theorem ensureDeviceRollbacksRunningLoop_faults_nil :
    ∀ refs (w : W) acc, w.faults = [] →
      (ensureDeviceRollbacksRunningLoop w acc refs).2.faults = [] := by
  intro refs
  induction refs with
  | nil => intro w acc hnil; exact hnil
  | cons ref rest ih =>
    intro w acc hnil
    simp only [ensureDeviceRollbacksRunningLoop]
    cases hdg : devGet w ref.id with
    | error e => exact hnil
    | ok dc =>
      dsimp only
      split
      · split
        · next e w1 hup => exact devUpdate_faults_nil hup hnil
        · next w1 hup => exact ih w1 true (devUpdate_faults_nil hup hnil)
      · exact ih w acc hnil

theorem reconcilePendingChange_faults_nil (c : NetworkChange) (r : Reconciler)
    (w : W) (hnil : w.faults = []) :
    (reconcilePendingChange c r w).2.2.faults = [] := by
  unfold reconcilePendingChange
  rcases hca : canApplyChange c r w with ⟨b, r1⟩
  cases b with
  | false => exact hnil
  | true =>
    dsimp only
    rw [if_neg (show ¬(!true) = true from by decide)]
    split
    · next e w1 hup => exact netUpdate_faults_nil hup hnil
    · next w1 hup => exact netUpdate_faults_nil hup hnil

theorem reconcileRunningChange_faults_nil (c : NetworkChange) (w : W)
    (hnil : w.faults = []) :
    (reconcileRunningChange c w).2.faults = [] := by
  unfold reconcileRunningChange
  cases hgd : getDeviceChanges c w with
  | error e => exact hnil
  | ok ds =>
    dsimp only
    have h1 := ensureDeviceChangesRunningLoop_faults_nil ds w false hnil
    rcases her : ensureDeviceChangesRunning ds w with ⟨⟨succ, e⟩, w1⟩
    unfold ensureDeviceChangesRunning at her
    rw [her] at h1
    dsimp only at h1
    dsimp only
    by_cases hcond : (succ || e.isSome) = true
    · rw [if_pos hcond]
      exact h1
    · rw [if_neg hcond]
      by_cases hcomp : isDeviceChangesComplete ds = true
      · rw [if_pos hcomp]
        split
        · next e2 w2 hup => exact netUpdate_faults_nil hup h1
        · next w2 hup => exact netUpdate_faults_nil hup h1
      · rw [if_neg hcomp]
        by_cases hfail : isDeviceChangesFailed ds = true
        · rw [if_pos hfail]
          have h2 := ensureDeviceChangeRollbacksRunningLoop_faults_nil ds w1 false h1
          rcases hrb : ensureDeviceChangeRollbacksRunning ds w1 with ⟨⟨s2, e2⟩, w2⟩
          unfold ensureDeviceChangeRollbacksRunning at hrb
          rw [hrb] at h2
          dsimp only at h2
          dsimp only
          by_cases hcond2 : (s2 || e2.isSome) = true
          · rw [if_pos hcond2]
            exact h2
          · rw [if_neg hcond2]
            by_cases hrc : isDeviceChangeRollbacksComplete ds = true
            · rw [if_pos hrc]
              split
              · next e3 w3 hup => exact netUpdate_faults_nil hup h2
              · next w3 hup => exact netUpdate_faults_nil hup h2
            · rw [if_neg hrc]
              exact h2
        · rw [if_neg hfail]
          exact h1

theorem reconcilePendingRollback_faults_nil (c : NetworkChange) (w : W)
    (hnil : w.faults = []) :
    (reconcilePendingRollback c w).2.faults = [] := by
  unfold reconcilePendingRollback
  rcases hcr : canApplyRollback c w with ⟨b, eo⟩
  cases eo with
  | some e => exact hnil
  | none =>
    cases b with
    | false => exact hnil
    | true =>
      dsimp only
      rw [if_neg (show ¬(!true) = true from by decide)]
      split
      · next e w1 hup => exact netUpdate_faults_nil hup hnil
      · next w1 hup => exact netUpdate_faults_nil hup hnil

theorem reconcileRunningRollback_faults_nil (c : NetworkChange) (w : W)
    (hnil : w.faults = []) :
    (reconcileRunningRollback c w).2.faults = [] := by
  unfold reconcileRunningRollback
  have h1 := ensureDeviceRollbacksRunningLoop_faults_nil c.changes w false hnil
  rcases hdr : ensureDeviceRollbacksRunning c w with ⟨⟨s, e⟩, w1⟩
  unfold ensureDeviceRollbacksRunning at hdr
  rw [hdr] at h1
  dsimp only at h1
  dsimp only
  by_cases hcond : (s || e.isSome) = true
  · rw [if_pos hcond]
    exact h1
  · rw [if_neg hcond]
    rcases hirc : isRollbackComplete c w1 with ⟨comp, eo⟩
    cases eo with
    | some e2 => exact h1
    | none =>
      cases comp with
      | false => exact h1
      | true =>
        dsimp only
        rw [if_neg (show ¬(!true) = true from by decide)]
        split
        · next e2 w2 hup => exact netUpdate_faults_nil hup h1
        · next w2 hup => exact netUpdate_faults_nil hup h1

theorem reconcileRollback_faults_nil (c : NetworkChange) (w : W)
    (hnil : w.faults = []) :
    (reconcileRollback c w).2.faults = [] := by
  unfold reconcileRollback
  have h1 := ensureDeviceRollbacksLoop_faults_nil c.changes w false hnil
  rcases herb : ensureDeviceRollbacks c w with ⟨⟨upd, e⟩, w1⟩
  unfold ensureDeviceRollbacks at herb
  rw [herb] at h1
  dsimp only at h1
  dsimp only
  by_cases hcond : (upd || e.isSome) = true
  · rw [if_pos hcond]
    exact h1
  · rw [if_neg hcond]
    cases c.status.state with
    | PENDING => exact reconcilePendingRollback_faults_nil c w1 h1
    | RUNNING => exact reconcileRunningRollback_faults_nil c w1 h1
    | COMPLETE => exact h1
    | FAILED => exact h1

theorem Reconcile_faults_nil (r : Reconciler) (w : W) (id : Nat)
    (hnil : w.faults = []) : (Reconcile r w id).2.2.faults = [] := by
  unfold Reconcile
  cases hget : netGet w id with
  | none => exact hnil
  | some c =>
    dsimp only
    have h1 := ensureDeviceChanges_faults_nil c w hnil
    rcases hed : ensureDeviceChanges c w with ⟨⟨succ, e⟩, c2, w1⟩
    rw [hed] at h1
    dsimp only at h1
    by_cases hcond : (succ || e.isSome) = true
    · rw [if_pos hcond]
      exact h1
    · rw [if_neg hcond]
      cases c2.status.phase with
      | CHANGE =>
        dsimp only
        unfold reconcileChange
        cases c2.status.state with
        | PENDING => exact reconcilePendingChange_faults_nil c2 r w1 h1
        | RUNNING =>
          dsimp only
          exact reconcileRunningChange_faults_nil c2 w1 h1
        | COMPLETE => exact h1
        | FAILED => exact h1
      | ROLLBACK =>
        dsimp only
        exact reconcileRollback_faults_nil c2 w1 h1

/-! ## changeIndex irrelevance under the invariant (C4) -/

/-- Under the changeIndex invariant, whether canApplyChange denies a change
depends only on the store: the scan from changeIndex finds a blocker exactly
when some index below the change's own index holds a blocker (entries below
changeIndex are terminal and so never block). -/
theorem canApplyChange_false_iff_inv (c : NetworkChange) (r : Reconciler)
    (w : W) (hInv : Inv r w) :
    (canApplyChange c r w).1 = false ↔ ∃ k, k < c.index ∧ blocksChange c w k := by
  unfold canApplyChange
  rw [canApplyChangeFrom_false_iff]
  constructor
  · rintro ⟨k, h1, h2, hb⟩
    exact ⟨k, by omega, hb⟩
  · rintro ⟨k, hk, hb⟩
    rcases hb with ⟨p, hp, hst, hint⟩
    have hge : r.changeIndex ≤ k := by
      by_contra hlt
      push_neg at hlt
      have ht := hInv k hlt p hp
      unfold terminal at ht
      rcases ht with h | h <;> rcases hst with h2 | h2 <;> rw [h2] at h <;> cases h
    exact ⟨k, hge, by omega, p, hp, hst, hint⟩

/-- reconcilePendingChange's verdict and resulting store state depend on the
reconciler only through the admission bool. -/
theorem reconcilePendingChange_irrel (c : NetworkChange) (r1 r2 : Reconciler)
    (w : W) (hb : (canApplyChange c r1 w).1 = (canApplyChange c r2 w).1) :
    (reconcilePendingChange c r1 w).1 = (reconcilePendingChange c r2 w).1 ∧
    (reconcilePendingChange c r1 w).2.2 = (reconcilePendingChange c r2 w).2.2 := by
  unfold reconcilePendingChange
  rcases hca1 : canApplyChange c r1 w with ⟨b1, r1x⟩
  rcases hca2 : canApplyChange c r2 w with ⟨b2, r2x⟩
  rw [hca1, hca2] at hb
  dsimp only at hb
  subst hb
  cases b1 with
  | false => exact ⟨rfl, rfl⟩
  | true =>
    dsimp only
    rw [if_neg (show ¬(!true) = true from by decide),
        if_neg (show ¬(!true) = true from by decide)]
    constructor
    · split
      · next e w1 heq => rfl
      · next w1 heq => rfl
    · split
      · next e w1 heq => rfl
      · next w1 heq => rfl

/-- Under the changeIndex invariant, the verdict and resulting store state of
Reconcile do not depend on the reconciler's cached changeIndex. -/
theorem Reconcile_cI_irrel (r1 r2 : Reconciler) (w : W) (id : Nat)
    (h1 : Inv r1 w) (h2 : Inv r2 w) :
    (Reconcile r1 w id).2.2 = (Reconcile r2 w id).2.2 := by
  unfold Reconcile
  cases hget : netGet w id with
  | none => rfl
  | some c =>
    dsimp only
    rcases hed : ensureDeviceChanges c w with ⟨⟨succ, e⟩, c2, w1⟩
    dsimp only
    by_cases hcond : (succ || e.isSome) = true
    · rw [if_pos hcond, if_pos hcond]
    · rw [if_neg hcond, if_neg hcond]
      have h0 : (succ || e.isSome) = false := by
        cases hq : (succ || e.isSome) with
        | false => rfl
        | true => exact absurd hq hcond
      rcases Bool.or_eq_false_iff.mp h0 with ⟨hs, hei⟩
      have he : e = none := by
        cases e with
        | none => rfl
        | some x => simp at hei
      have hcc := ensureDeviceChanges_continue c w (by
        rw [hed]
        dsimp only
        rw [hs, he])
      rw [hed] at hcc
      dsimp only at hcc
      rcases hcc with ⟨hc2, hw1⟩
      cases c2.status.phase with
      | CHANGE =>
        dsimp only
        unfold reconcileChange
        cases c2.status.state with
        | PENDING =>
          have hbeq : (canApplyChange c2 r1 w1).1 = (canApplyChange c2 r2 w1).1 := by
            rw [hc2, hw1]
            have i1 := canApplyChange_false_iff_inv c r1 w h1
            have i2 := canApplyChange_false_iff_inv c r2 w h2
            cases hb1 : (canApplyChange c r1 w).1 with
            | false =>
              cases hb2 : (canApplyChange c r2 w).1 with
              | false => rfl
              | true =>
                have hP := i1.mp hb1
                have hc := i2.mpr hP
                rw [hb2] at hc
                cases hc
            | true =>
              cases hb2 : (canApplyChange c r2 w).1 with
              | false =>
                have hP := i2.mp hb2
                have hc := i1.mpr hP
                rw [hb1] at hc
                cases hc
              | true => rfl
          exact (reconcilePendingChange_irrel c2 r1 r2 w1 hbeq).2
        | RUNNING => dsimp only
        | COMPLETE => rfl
        | FAILED => rfl
      | ROLLBACK => dsimp only

/-! ## Claim C4: idempotence of Reconcile -/

def c4xC : NetworkChange :=
  ⟨1, 1, [⟨1, 1, "d1", "v1", 0⟩],
    ⟨Phase.CHANGE, ChangeState.PENDING, Reason.NONE⟩⟩

def c4xD : DeviceChange :=
  ⟨1, 1, 1, "d1", "v1", 0, ⟨Phase.CHANGE, ChangeState.PENDING, Reason.NONE⟩⟩

def c4xW : W := ⟨⟨[c4xC], [c4xD], 2⟩, []⟩

/-- C4 counterexample: with a fault-free store holding a (CHANGE, PENDING)
network change whose child is already materialized, the first Reconcile
promotes the parent to RUNNING and returns; the second call additionally
promotes the PENDING child to RUNNING. Two calls therefore leave the stores
in a different state than one call, contradicting the claim as stated. -/
theorem claim_C4_cex :
    (ReconcileSeq [1, 1] (⟨0⟩, c4xW)).2.stores ≠
      (ReconcileSeq [1] (⟨0⟩, c4xW)).2.stores := by decide

/-- C4 (amended): Reconcile is idempotent at its fixed points. On a
fault-free store satisfying well-formedness and the changeIndex invariant,
whenever one Reconcile call leaves the stores unchanged, running it again
(threading the updated reconciler and store state, with no intervening
external writes) also leaves the stores unchanged. In general a single call
makes progress (for example promoting the parent and then its children over
successive calls), so the store state after two calls can differ from the
state after one. -/
theorem claim_C4 (r : Reconciler) (w : W) (id : Nat)
    (hnil : w.faults = []) (hwf : netWF w) (hInv : Inv r w)
    (hfix : (Reconcile r w id).2.2.stores = w.stores) :
    (Reconcile (Reconcile r w id).2.1 (Reconcile r w id).2.2 id).2.2.stores
      = w.stores := by
  have hfnil : (Reconcile r w id).2.2.faults = [] :=
    Reconcile_faults_nil r w id hnil
  have hw : (Reconcile r w id).2.2 = w := by
    calc (Reconcile r w id).2.2
        = ⟨(Reconcile r w id).2.2.stores, (Reconcile r w id).2.2.faults⟩ := rfl
      _ = ⟨w.stores, w.faults⟩ := by rw [hfix, hfnil, hnil]
      _ = w := rfl
  rw [hw]
  have hInv2 : Inv (Reconcile r w id).2.1 w := by
    have hp := (Reconcile_preserves r w id hwf hInv).2.1
    rw [hw] at hp
    exact hp
  rw [Reconcile_cI_irrel (Reconcile r w id).2.1 r w id hInv2 hInv]
  exact hfix

def c4wC : NetworkChange :=
  ⟨1, 1, [⟨5, 1, "d1", "v1", 0⟩],
    ⟨Phase.CHANGE, ChangeState.COMPLETE, Reason.NONE⟩⟩

def c4wW : W := ⟨⟨[c4wC], [], 2⟩, []⟩

theorem claim_C4_witness :
    c4wW.faults = [] ∧ netWF c4wW ∧ Inv ⟨0⟩ c4wW ∧
    (Reconcile ⟨0⟩ c4wW 1).2.2.stores = c4wW.stores ∧
    (Reconcile (Reconcile ⟨0⟩ c4wW 1).2.1 (Reconcile ⟨0⟩ c4wW 1).2.2 1).2.2.stores
      = c4wW.stores :=
  ⟨rfl, by decide, Inv_zero c4wW, by decide,
    claim_C4 ⟨0⟩ c4wW 1 rfl (by decide) (Inv_zero c4wW) (by decide)⟩
